import Mathlib

/-!
Shallow embedding of the media-stream merge planner (mkvstreamedit.py) and
proofs of the specification's claims about it.

Conventions of the embedding:
* Python strings are Lean `String`s; character-level operations go through
  `String.data : List Char`.
* The external world (filesystem tests, the inspection/muxing subprocesses,
  the regex scanner over the external tool's free text) is a record of
  oracle functions (`ProbeEnv`, `MergeEnv`); the engine itself is a pure
  function of that record.
* A Python exception that the source catches becomes an `Except.error`
  value consumed in place; one the source does not catch propagates as the
  `Except.error` result of the embedded function.
* Observable actions (spawning a process, removing or writing a file,
  writing an output index into a stream record) are collected in a list of
  `Effect`s.
* Console echo (`print` calls guarded by `console_feedback`) is not part of
  the model: it mirrors the run log line for line and has no further effect.
-/

/-- `os.path.abspath`: path resolution depends on the process working
directory, which is outside the model; paths are taken as already absolute. -/
def os_abspath (p : String) : String := p

/-- `str.startswith`, on the character lists. -/
def str_startswith (s pre : String) : Bool := pre.data.isPrefixOf s.data

/-- `str.endswith`, on the character lists. -/
def str_endswith (s suf : String) : Bool := suf.data.isSuffixOf s.data

/-- `c in str`, on the character list. -/
def str_contains (s : String) (c : Char) : Bool := s.data.contains c

/-- `str.split` with a one-character separator, on the character list:
maximal runs between separator occurrences, one (possibly empty) piece more
than there are separators. -/
def split_chars (c : Char) : List Char → List (List Char)
  | [] => [[]]
  | x :: xs =>
    let r := split_chars c xs
    if x = c then [] :: r
    else
      match r with
      | [] => [[x]]
      | h :: t => (x :: h) :: t

/-- `str.split` with a one-character separator. -/
def split_on_char (c : Char) (s : String) : List String :=
  (split_chars c s.data).map (fun l => ⟨l⟩)

/-- `os.path.basename` on POSIX: the part after the last slash. -/
def os_basename (p : String) : String := (split_on_char '/' p).getLastD ""

/-- `os.path.join` on POSIX for two components. -/
def os_join (a b : String) : String :=
  if str_startswith b "/" then b
  else if a = "" ∨ str_endswith a "/" then a ++ b
  else a ++ "/" ++ b

/-- The `max_prefix` accumulation loop of `is_prefix_matching` (lines 20-25):
walk both strings in lockstep, keep characters while they agree, stop at the
first mismatch. -/
def max_common_start : List Char → List Char → List Char
  | x :: xs, y :: ys => if x = y then x :: max_common_start xs ys else []
  | _, _ => []

/-- `is_prefix_matching` (lines 6-26): whether one string is a prefix of the
other; on success the longer string and the difference, on failure the empty
string and the longest common leading substring. -/
def is_prefix_matching (str_a str_b : String) : Bool × String × String :=
  if str_a.length > str_b.length then
    if str_b.data.isPrefixOf str_a.data then
      (true, str_a, ⟨str_a.data.drop str_b.length⟩)
    else (false, "", ⟨max_common_start str_a.data str_b.data⟩)
  else
    if str_a.data.isPrefixOf str_b.data then
      (true, str_b, ⟨str_b.data.drop str_a.length⟩)
    else (false, "", ⟨max_common_start str_a.data str_b.data⟩)

/-- `get_absolute_file_name` (lines 28-40): the file name without its
extension, with the source's three special cases. -/
def get_absolute_file_name (file_name : String) : String :=
  let result := split_on_char '.' file_name
  if result.length ≤ 1 then file_name
  else if result.length = 2 ∧ result.head? = some "" then file_name
  else if result.getLast? = some "" then file_name
  else String.intercalate "." result.dropLast

/-- `parse_cmd_args` (lines 42-57): render an argument list as one string,
quoting arguments that contain a space unless they already carry a quote or
start with a dash. -/
def parse_cmd_args (cmd_args : List String) : String :=
  if cmd_args = [] then ""
  else
    let chunk := fun (arg : String) =>
      if str_contains arg ' ' then
        if ¬ str_contains arg '"' ∧ ¬ str_contains arg (Char.ofNat 39) ∧
            ¬ str_startswith arg "-" then
          "\"" ++ arg ++ "\" "
        else arg ++ " "
      else arg ++ " "
    ⟨(String.join (cmd_args.map chunk)).data.dropLast⟩

/-! ## The probe: `get_video_stream` -/

/-- One match of the stream-line pattern
`Stream #(\d+):(\d+)(.*): (\w+): (\w+)` over the inspection tool's text.
The first capture is kept as the digit string the source compares to `'0'`;
the second is the integer the source converts it to (the pattern guarantees
the conversion succeeds). -/
structure StreamCapture where
  fileIndex : String
  streamIndex : Nat
  lang : String
  stype : String
  codec : String
deriving DecidableEq

/-- One entry of a probe result's `stream_info` list. -/
structure StreamInfo where
  index : Nat
  stype : String
  codec : String
  language : String
deriving DecidableEq

/-- What the outside world answers during one `get_video_stream` call:
the two filesystem tests, the subprocess outcome (`.error` models a raised
exception, `.ok` carries stdout, stderr and the exit code), and the regex
`findall` scanner applied to the captured log. -/
structure ProbeEnv where
  pathExists : Bool
  pathIsFile : Bool
  runResult : Except String (String × String × Int)
  findall : String → List StreamCapture

/-- The dictionary `get_video_stream` returns (exceptions are kept as their
`str(e)` text). -/
structure ProbeResult where
  is_success : Bool
  warning_count : Nat
  warning_list : List String
  output_log : List String
  ffmpeg_log : String
  ffmpeg_exit_code : Int
  cmd_args : List String
  exception : List String
  stream_info : List StreamInfo
deriving DecidableEq

/-- Python `str.find` for a single character: the first index holding it,
or `none` where Python returns `-1`. -/
def str_find_char (c : Char) : List Char → Option Nat
  | [] => none
  | x :: xs => if x = c then some 0 else (str_find_char c xs).map (· + 1)

/-- Lines 156-158: `bracket_index = language.find('(')`, then slice from it
when it is non-negative (a slice at 0 when the character is absent changes
nothing). -/
def cut_at_first_paren (l : List Char) : List Char :=
  match str_find_char '(' l with
  | some i => l.drop i
  | none => l

/-- Language-tag normalization of one captured tag (lines 152-167), on the
character list: an empty tag becomes `(und)` first; a tag ending in `)` is
cut at its first `(`; if the outcome is wrapped in parentheses it is
unwrapped, otherwise the original tag is kept and flagged (`true` = the
"unexpected language code" warning fires). -/
def normalize_lang_chars (lang : List Char) : List Char × Bool :=
  let language := if lang = [] then ['(', 'u', 'n', 'd', ')'] else lang
  let language :=
    if language.getLast? = some ')' then cut_at_first_paren language
    else language
  if language.head? = some '(' ∧ language.getLast? = some ')' then
    ((language.drop 1).dropLast, false)
  else (lang, true)

/-- Language-tag normalization on strings. -/
def normalize_language (lang : String) : String × Bool :=
  let r := normalize_lang_chars lang.data
  (⟨r.1⟩, r.2)

/-- Accumulated output of the per-stream parse loop (lines 142-192): the
warnings raised, the run-log lines, and the stream records, in stream order.
The loop's own `except` arm is unreachable in the model: every step of the
translated body is total. -/
structure ParseAcc where
  warns : List String
  logs : List String
  streams : List StreamInfo
deriving DecidableEq

/-- One iteration of the parse loop over a captured stream line: the
file-index validation, the language normalization, the stream-type
validation, then the record and its log line. -/
def parse_capture (c : StreamCapture) : ParseAcc :=
  let fi := c.fileIndex
  let si := c.streamIndex
  let idxWarns := if fi ≠ "0" then [s!"Found unexpected stream index #{fi}:{si}"] else []
  let lr := normalize_language c.lang
  let language := lr.1
  let lg := c.lang
  let langWarns := if lr.2 then [s!"Found unexpected language code {lg}"] else []
  let ty := c.stype
  let typeWarns := if ty ∉ ["Video", "Audio", "Subtitle"] then [s!"Found unexpected stream type {ty}"] else []
  let warns := idxWarns ++ langWarns ++ typeWarns
  let co := c.codec
  { warns := warns
    logs := warns.map (fun w => "Warning: " ++ w) ++ [s!"Info: Stream #{si}: {ty} - {co} - {language}"]
    streams := [{ index := si, stype := ty, codec := co, language := language }] }

/-- The whole parse loop, capture by capture. -/
def parse_captures : List StreamCapture → ParseAcc
  | [] => ⟨[], [], []⟩
  | c :: rest =>
    let one := parse_capture c
    let more := parse_captures rest
    ⟨one.warns ++ more.warns, one.logs ++ more.logs, one.streams ++ more.streams⟩

/-- Effects the engine performs on the outside world, in order. -/
inductive Effect where
  | spawnProbe (path : String)
  | spawnMerge (args : List String)
  | makeDirs (path : String)
  | removeFile (path : String)
  | writeFile (path : String)
  | assignWrite (taskId fileIdx streamIdx outIdx : Nat)
deriving DecidableEq

/-- `get_video_stream` (lines 59-208): check the file, run the inspection
command, parse its text into stream records. The function never fails past
its own boundary; `is_success` only reflects the two filesystem tests. -/
def get_video_stream (env : ProbeEnv) (video_file_path : String) :
    ProbeResult × List Effect :=
  let abs_file_path := os_abspath video_file_path
  let base := os_basename abs_file_path
  if env.pathExists = false then
    ({ is_success := false, warning_count := 0, warning_list := [],
       output_log := [s!"Error: File {abs_file_path} not found"],
       ffmpeg_log := "", ffmpeg_exit_code := -1, cmd_args := [],
       exception := [], stream_info := [] }, [])
  else if env.pathIsFile = false then
    ({ is_success := false, warning_count := 0, warning_list := [],
       output_log := [s!"Error: {abs_file_path} is not a file"],
       ffmpeg_log := "", ffmpeg_exit_code := -1, cmd_args := [],
       exception := [], stream_info := [] }, [])
  else
    let cmd_args := ["ffmpeg", "-i", abs_file_path]
    let shown := parse_cmd_args cmd_args
    let pre_logs := [s!"Info: Reading the metadata of {base}",
                     s!"Info: Executing: {shown}"]
    -- subprocess.run inside try/except (lines 115-136)
    let exec : String × Int × Nat × List String × List String × List String :=
      match env.runResult with
      | .ok (out, err, code) =>
        let flog := out ++ "\n" ++ err ++ "\n"
        if code = 0 ∨ code = 1 then
          (flog, code, 0, [], [s!"Info: FFmpeg process exited with code: {code}"], [])
        else
          let w := s!"FFmpeg process terminated with code {code}"
          (flog, code, 1, [w], ["Warning: " ++ w], [])
      | .error e =>
        let w := s!"Caught Exception when trying to read metadata of {base}: {e}"
        ("", -1, 1, [w], ["Warning: " ++ w], [e])
    let ffmpeg_log := exec.1
    let code := exec.2.1
    let captures := env.findall ffmpeg_log
    let pacc := parse_captures captures
    let noStream : Nat × List String × List String :=
      if captures.length = 0 then
        let w := s!"No stream found for {base}"
        (1, [w], ["Warning: " ++ w])
      else (0, [], [])
    ({ is_success := true
       warning_count := exec.2.2.1 + pacc.warns.length + noStream.1
       warning_list := exec.2.2.2.1 ++ pacc.warns ++ noStream.2.1
       output_log := pre_logs ++ exec.2.2.2.2.1 ++ pacc.logs ++ noStream.2.2
       ffmpeg_log := ffmpeg_log
       ffmpeg_exit_code := code
       cmd_args := cmd_args
       exception := exec.2.2.2.2.2
       stream_info := pacc.streams }, [.spawnProbe abs_file_path])

/-! ## The merge engine: `merge_video_stream` -/

/-- One entry of a task's per-input `stream_info` list: a probe record plus
the output index, `-1` until the mapping phase assigns it. -/
structure TaskStream where
  index : Nat
  stype : String
  codec : String
  language : String
  output_index : Int
deriving DecidableEq

instance : Inhabited TaskStream := ⟨⟨0, "", "", "", -1⟩⟩

/-- One entry of a task's `input_files` list. -/
structure InputFile where
  index : Nat
  file_path : String
  ffmpeg_log : String
  ffmpeg_exit_code : Int
  is_success : Bool
  cmd_args : List String
  stream_info : List TaskStream
deriving DecidableEq

instance : Inhabited InputFile := ⟨⟨0, "", "", -1, false, [], []⟩⟩

/-- One merge task. -/
structure MergeTask where
  task_id : Nat
  is_success : Bool
  ffmpeg_log : String
  ffmpeg_exit_code : Int
  cmd_args : List String
  input_files : List InputFile
deriving DecidableEq

/-- The run-wide report dictionary `merge_video_stream` returns. -/
structure RunReport where
  task_count : Nat
  success_count : Nat
  failed_count : Nat
  warning_count : Nat
  warning_list : List String
  output_log : List String
  exception : List String
  task : List MergeTask
deriving DecidableEq

/-- What the outside world answers during one `merge_video_stream` run:
filesystem tests and listings, the per-file probe world, removal and write
outcomes (`.error` = the operation raised), the merge subprocess, and the
regex scanner for the muxer's end-of-run lines. -/
structure MergeEnv where
  inputExists : Bool
  inputIsDir : Bool
  outputExists : Bool
  makedirs : Except String Unit
  outputIsDir : Bool
  outputListing : List String
  folderListing : List String
  entryIsDir : String → Bool
  probe : String → ProbeEnv
  fileExists : String → Bool
  remove : String → Except String Unit
  run : List String → Except String (String × String × Int)
  warnMatches : String → List (String × String × String)
  write : String → Except String Unit

/-- The engine's mutable run context: the report, the per-discovered-file
use counters, and the effect trace. -/
structure RunState where
  report : RunReport
  counters : List Nat
  fx : List Effect

/-- Append one warning: the source always pairs a `warning_count` increment,
a `warning_list` entry and a `Warning: `-prefixed run-log line. -/
def add_warning (r : RunReport) (msg : String) : RunReport :=
  { r with warning_count := r.warning_count + 1,
           warning_list := r.warning_list ++ [msg],
           output_log := r.output_log ++ ["Warning: " ++ msg] }

/-- Append several warnings in order. -/
def add_warning_list (r : RunReport) (ws : List String) : RunReport :=
  ws.foldl add_warning r

/-- Append one run-log line. -/
def add_log (r : RunReport) (msg : String) : RunReport :=
  { r with output_log := r.output_log ++ [msg] }

/-- The four bucket lists the mapping phase is built from. The source keeps
each bucket as two parallel arrays (`*_stream_file_index`,
`*_stream_stream_index`); the embedding pairs them. -/
structure Buckets where
  v : List (Nat × Nat)
  a : List (Nat × Nat)
  s : List (Nat × Nat)
  o : List (Nat × Nat)
deriving DecidableEq

def Buckets.append (x y : Buckets) : Buckets :=
  ⟨x.v ++ y.v, x.a ++ y.a, x.s ++ y.s, x.o ++ y.o⟩

def emptyBuckets : Buckets := ⟨[], [], [], []⟩

/-- Which of the three per-file ingestion loops a stream is classified in:
the triggering video file (lines 409-429), a matched audio file
(lines 463-493) or a matched subtitle file (lines 528-570). -/
inductive SrcKind where
  | videoSrc
  | audioSrc
  | subtitleSrc
deriving DecidableEq

/-- A probe stream record as it enters a task: `output_index` not yet
assigned. -/
def toTaskStream (info : StreamInfo) : TaskStream :=
  ⟨info.index, info.stype, info.codec, info.language, -1⟩

/-- Classification of one stream of one input file: the bucket entry
`(input_file_index, stream index)` it contributes, the context-dependent
warnings, and whether it counts toward `subtitle_stream_count`. -/
def ingest_stream (ctx : SrcKind) (path : String) (fi : Nat) (info : StreamInfo) :
    Buckets × List String × Nat :=
  let si := info.index
  if info.stype = "Video" then
    (⟨[(fi, si)], [], [], []⟩,
     match ctx with
     | .videoSrc => []
     | .audioSrc => [s!"Found unexpected video stream #{si} in audio file: {path}"]
     | .subtitleSrc => [s!"Found unexpected video stream #{si} in subtitle file: {path}"], 0)
  else if info.stype = "Audio" then
    (⟨[], [(fi, si)], [], []⟩,
     match ctx with
     | .videoSrc => []
     | .audioSrc => []
     | .subtitleSrc => [s!"Found unexpected audio stream #{si} in subtitle file: {path}"], 0)
  else if info.stype = "Subtitle" then
    (⟨[], [], [(fi, si)], []⟩, [],
     match ctx with
     | .subtitleSrc => 1
     | _ => 0)
  else
    (⟨[], [], [], [(fi, si)]⟩,
     match ctx with
     | .videoSrc => []
     | .audioSrc => [s!"Found unexpected stream #{si} in audio file: {path}"]
     | .subtitleSrc => [s!"Found unexpected stream #{si} in subtitle file: {path}"], 0)

/-- The per-file stream loop, in stream order. -/
structure StreamIngest where
  recs : List TaskStream
  bks : Buckets
  warns : List String
  subCount : Nat

def ingest_streams (ctx : SrcKind) (path : String) (fi : Nat) :
    List StreamInfo → StreamIngest
  | [] => ⟨[], emptyBuckets, [], 0⟩
  | info :: rest =>
    let one := ingest_stream ctx path fi info
    let more := ingest_streams ctx path fi rest
    ⟨toTaskStream info :: more.recs, one.1.append more.bks,
     one.2.1 ++ more.warns, one.2.2 + more.subCount⟩

/-- `(folder_files.zip counters)` incremented at every position whose file
name equals `base` (the per-file use-counter loops, e.g. lines 393-395). -/
def bump_use_counter (folder_files : List String) (counters : List Nat)
    (base : String) : List Nat :=
  (folder_files.zip counters).map (fun p => if p.1 = base then p.2 + 1 else p.2)

/-- Ingest one input file into the task being built: bump its use counter,
log it, probe it, merge the probe's report, classify its streams. Common to
the three per-file blocks of the source; `ctx` selects the block's extra
warnings. -/
def ingest_input_file (env : MergeEnv) (folder_files : List String)
    (ctx : SrcKind) (path : String) (fi : Nat) (st : RunState) :
    InputFile × Buckets × RunState :=
  let counters := bump_use_counter folder_files st.counters (os_basename path)
  let r1 := add_log st.report s!"Info: Input file #{fi}: {path}"
  let pe := get_video_stream (env.probe path) path
  let pr := pe.1
  let r2 := { r1 with warning_count := r1.warning_count + pr.warning_count,
                      warning_list := r1.warning_list ++ pr.warning_list,
                      output_log := r1.output_log ++ pr.output_log,
                      exception := r1.exception ++ pr.exception }
  let acc := ingest_streams ctx path fi pr.stream_info
  let r3 := add_warning_list r2 acc.warns
  let sc := acc.subCount
  let r4 := if ctx = .subtitleSrc ∧ 1 < sc then
      add_warning r3 s!"Found {sc} subtitle streams in subtitle file: {path}"
    else r3
  let file : InputFile :=
    ⟨fi, path, pr.ffmpeg_log, pr.ffmpeg_exit_code, pr.is_success, pr.cmd_args, acc.recs⟩
  (file, acc.bks, ⟨r4, counters, st.fx ++ pe.2⟩)

/-- The matched-companion loop (lines 435-496 for audio, 499-573 for
subtitles): walk the candidate files, ingest each whose extension-stripped
base name prefix-matches the video's, threading `input_file_index`. -/
def ingest_matching (env : MergeEnv) (folder_files : List String)
    (ctx : SrcKind) (video_file : String) :
    List String → Nat → RunState →
    List InputFile × Buckets × List String × Nat × RunState
  | [], fi, st => ([], emptyBuckets, [], fi, st)
  | cand :: rest, fi, st =>
    let m := is_prefix_matching (get_absolute_file_name (os_basename video_file))
      (get_absolute_file_name (os_basename cand))
    if m.1 then
      let one := ingest_input_file env folder_files ctx cand fi st
      let more := ingest_matching env folder_files ctx video_file rest (fi + 1) one.2.2
      (one.1 :: more.1, one.2.1.append more.2.1, ["-i", cand] ++ more.2.2.1,
       more.2.2.2.1, more.2.2.2.2)
    else ingest_matching env folder_files ctx video_file rest fi st

/-! ### The mapping phase

The source interleaves, stream by stream, the `-map` argument, the
`output_index` write into the task's nested lists, the optional subtitle
metadata, and the run-log line (lines 594-639). The writes touch only
`output_index`; the arguments and log lines read only the bucket pairs and
each input file's `file_path`, which the writes never change. The embedding
therefore computes the writes in one pass (`assign_cells`) and the
arguments/log lines in another, in the same order; an out-of-range index —
Python's uncaught `IndexError` — makes the whole write pass (and with it
the engine) fail. -/

/-- Write `output_index := idx` into stream `s` of input file `f`, or
`none` when either list index is out of range. -/
def set_output_cell (files : List InputFile) (f s idx : Nat) :
    Option (List InputFile) :=
  match files[f]? with
  | none => none
  | some fl =>
    match fl.stream_info[s]? with
    | none => none
    | some rec =>
      some (files.set f
        { fl with stream_info := fl.stream_info.set s { rec with output_index := Int.ofNat idx } })

/-- Perform the whole write sequence, numbering from `idx`
(`input_stream_index` in the source). -/
def assign_cells (files : List InputFile) :
    List (Nat × Nat) → Nat → Option (List InputFile)
  | [], _ => some files
  | c :: rest, idx =>
    match set_output_cell files c.1 c.2 idx with
    | none => none
    | some files1 => assign_cells files1 rest (idx + 1)

/-- The `-map` arguments, one pair per mapped stream in bucket order. -/
def map_args_of (pairs : List (Nat × Nat)) : List String :=
  pairs.flatMap (fun c =>
    let f := c.1
    let s := c.2
    ["-map", s!"{f}:{s}"])

/-- Source path shown in a mapping log line. -/
def path_of (files : List InputFile) (f : Nat) : String :=
  (files.getD f default).file_path

/-- Mapping log lines of the video block (lines 595-601). -/
def video_block_logs (files : List InputFile) (pairs : List (Nat × Nat))
    (start : Nat) : List String :=
  pairs.enum.map (fun e =>
    let i := e.1
    let f := e.2.1
    let s := e.2.2
    let idx := start + i
    let p := path_of files f
    s!"Info: Stream #{f}:{s} -> Stream #{idx} [Video #{i}] (from {p})")

/-- Mapping log lines of the audio block (lines 602-608). -/
def audio_block_logs (files : List InputFile) (pairs : List (Nat × Nat))
    (start : Nat) : List String :=
  pairs.enum.map (fun e =>
    let i := e.1
    let f := e.2.1
    let s := e.2.2
    let idx := start + i
    let p := path_of files f
    s!"Info: Stream #{f}:{s} -> Stream #{idx} [Audio #{i}] (from {p})")

/-- Mapping log lines of the catch-all block (lines 633-639). -/
def other_block_logs (files : List InputFile) (pairs : List (Nat × Nat))
    (start : Nat) : List String :=
  pairs.enum.map (fun e =>
    let f := e.2.1
    let s := e.2.2
    let idx := start + e.1
    let p := path_of files f
    s!"Info: Stream #{f}:{s} -> Stream #{idx} (from {p})")

/-- The display title of a subtitle stream read from a standalone subtitle
file (lines 614-617): the companion-match differential, the file's last
extension re-appended, a leading dot stripped when the result is longer
than one character. -/
def subtitle_metadata_title (video_file path : String) : String :=
  let m := is_prefix_matching (get_absolute_file_name (os_basename video_file))
    (get_absolute_file_name (os_basename path))
  let diff := m.2.2
  let ext := (split_on_char '.' (os_basename path)).getLastD ""
  let t0 := diff ++ "." ++ ext
  if 1 < t0.length ∧ t0.data.head? = some '.' then ⟨t0.data.drop 1⟩ else t0

/-- One subtitle-block step (lines 609-632): the warnings, metadata
arguments and run-log lines it contributes. `i` is the block-local
position, `idx` the output index being assigned. -/
def subtitle_block_step (video_file : String) (subtitle_files : List String)
    (files : List InputFile) (i idx : Nat) (c : Nat × Nat) :
    List String × List String × List String :=
  let f := c.1
  let s := c.2
  let p := path_of files f
  if subtitle_files.contains p then
    let t := subtitle_metadata_title video_file p
    let warns := if t.length = 0 ∨ t = "." then
        [s!"Subtitle file {p} has no valid title"]
      else []
    let margs := [s!"-metadata:s:{idx}", "title=\"" ++ t ++ "\""]
    let logs := warns.map (fun w => "Warning: " ++ w) ++
      [s!"Info: Stream #{f}:{s} -> Stream #{idx} [Subtitle #{i}: {t}] (from {p})"]
    (warns, margs, logs)
  else
    ([], [], [s!"Info: Stream #{f}:{s} -> Stream #{idx} [Subtitle #{i}] (from {p})"])

/-- The whole subtitle block, pair by pair. -/
def subtitle_block_outs (video_file : String) (subtitle_files : List String)
    (files : List InputFile) (start : Nat) (pairs : List (Nat × Nat)) :
    List String × List String × List String :=
  (pairs.enum.map (fun e =>
    subtitle_block_step video_file subtitle_files files e.1 (start + e.1) e.2)).foldr
    (fun x acc => (x.1 ++ acc.1, x.2.1 ++ acc.2.1, x.2.2 ++ acc.2.2)) ([], [], [])

/-! ### Task assembly and execution -/

/-- Everything `process_task` computes before the output-file check: the
assigned input files, the assembled command, the output path, the final
`input_file_index`, the updated run state. `none` stands for the uncaught
`IndexError` of the mapping phase. -/
def build_task (env : MergeEnv) (output_folder_path : String)
    (encoding_sub : Bool) (folder_files audio_files subtitle_files : List String)
    (video_file : String) (task_id : Nat) (st1 : RunState) :
    Option (List InputFile × List String × String × Nat × RunState) :=
  let one := ingest_input_file env folder_files .videoSrc video_file 0 st1
  let vfile := one.1
  let bv := one.2.1
  let am := ingest_matching env folder_files .audioSrc video_file audio_files 1 one.2.2
  let sm := ingest_matching env folder_files .subtitleSrc video_file subtitle_files
    am.2.2.2.1 am.2.2.2.2
  let files0 := vfile :: (am.1 ++ sm.1)
  let input_file_index := sm.2.2.2.1
  let cmd_input_args := ["-i", video_file] ++ am.2.2.1 ++ sm.2.2.1
  let B := bv.append (am.2.1.append sm.2.1)
  let nv := B.v.length
  let r := sm.2.2.2.2.report
  let r := if 1 < nv then
      add_warning r s!"Merge {nv} video streams into one file." else r
  let r := if nv = 0 then
      add_warning r s!"No video stream found in {video_file}" else r
  let r := if input_file_index ≤ 1 then
      add_warning r s!"No matching file found for {video_file}" else r
  let P := B.v ++ B.a ++ B.s ++ B.o
  match assign_cells files0 P 0 with
  | none => none
  | some files1 =>
    let na := B.a.length
    let ns := B.s.length
    let vlogs := video_block_logs files0 B.v 0
    let alogs := audio_block_logs files0 B.a nv
    let souts := subtitle_block_outs video_file subtitle_files files0 (nv + na) B.s
    let ologs := other_block_logs files0 B.o (nv + na + ns)
    let r := { r with output_log := r.output_log ++ vlogs ++ alogs ++ souts.2.2 ++ ologs,
                      warning_count := r.warning_count + souts.1.length,
                      warning_list := r.warning_list ++ souts.1 }
    let cmd_disposition_args :=
      (if 0 < B.a.length then ["-disposition:a:0", "default"] else []) ++
      (if 0 < B.s.length then ["-disposition:s:0", "default"] else [])
    let codec_args := if encoding_sub then ["-c:v", "copy", "-c:a", "copy"]
      else ["-c", "copy"]
    let output_file := os_join output_folder_path
      (get_absolute_file_name (os_basename video_file) ++ ".mkv")
    let cmd_args := ["ffmpeg"] ++ cmd_input_args ++ map_args_of P ++ souts.2.1 ++
      cmd_disposition_args ++ codec_args ++ [output_file]
    let fx := sm.2.2.2.2.fx ++
      P.enum.map (fun e => Effect.assignWrite task_id e.2.1 e.2.2 e.1)
    some (files1, cmd_args, output_file, input_file_index,
      ⟨r, sm.2.2.2.2.counters, fx⟩)

/-- The pre-existing output file check (lines 657-664); the `os.remove`
call is not inside a `try`, so its failure propagates. -/
def remove_existing_output (env : MergeEnv) (disable_ffmpeg_merge : Bool)
    (output_file : String) (st2 : RunState) : Except String RunState :=
  if env.fileExists output_file ∧ disable_ffmpeg_merge = false then
    let r := add_warning st2.report
      s!"Output file {output_file} already exists, will be overwritten"
    match env.remove output_file with
    | .ok _ => .ok ⟨r, st2.counters, st2.fx ++ [.removeFile output_file]⟩
    | .error e => .error e
  else .ok st2

/-- The echo of every matched muxer line into the run log
(lines 694-699, taken when the full log is not copied). -/
def log_muxer_lines (ws : List (String × String × String)) (r : RunReport) :
    RunReport :=
  ws.foldl (fun acc t =>
    let m := t.1
    let mid := t.2.1
    let content := t.2.2
    add_log acc s!"Info: FFmpeg: [{m} @ {mid}] {content}") r

/-- One iteration of the per-video loop (lines 350-746): build the task,
remove a pre-existing output file, run or dry-run the merge command, update
the counters. Propagated `Except.error`s are the source's uncaught
exceptions (the mapping `IndexError`, a failing `os.remove`). -/
def process_task (env : MergeEnv) (output_folder_path : String)
    (encoding_sub disable_ffmpeg_merge write_ffmpeg_log : Bool)
    (folder_files audio_files subtitle_files : List String) (total : Nat)
    (video_file : String) (task_id : Nat) (st0 : RunState) :
    Except String RunState :=
  let st1 : RunState :=
    { st0 with report := add_log st0.report s!"Info: Processing task {task_id}/{total}" }
  match build_task env output_folder_path encoding_sub folder_files audio_files
    subtitle_files video_file task_id st1 with
  | none => .error "IndexError: list index out of range"
  | some built =>
    let files1 := built.1
    let cmd_args := built.2.1
    let output_file := built.2.2.1
    let input_file_index := built.2.2.2.1
    let st2 := built.2.2.2.2
    match remove_existing_output env disable_ffmpeg_merge output_file st2 with
    | .error e => .error e
    | .ok st3 =>
      let shown := parse_cmd_args cmd_args
      if disable_ffmpeg_merge = true then
        let r := add_log (add_log st3.report
          s!"Info: Merge {input_file_index} files into {output_file}")
          s!"Info: Command: {shown}"
        let task : MergeTask :=
          ⟨task_id, true, "FFmpeg process is disabled", 0, cmd_args, files1⟩
        .ok ⟨{ r with task_count := r.task_count + 1,
                      success_count := r.success_count + 1,
                      task := r.task ++ [task] }, st3.counters, st3.fx⟩
      else
        let r := add_log (add_log st3.report
          s!"Info: Merging {input_file_index} files into {output_file}")
          s!"Info: Executing: {shown}"
        match env.run cmd_args with
        | .error e =>
          let task : MergeTask := ⟨task_id, false, "", -1, cmd_args, files1⟩
          let r := add_log r
            s!"Error: Caught Exception when trying to merge {input_file_index} files into {output_file}: {e}"
          .ok ⟨{ r with task_count := r.task_count + 1,
                        failed_count := r.failed_count + 1,
                        task := r.task ++ [task],
                        exception := r.exception ++ [e] },
               st3.counters, st3.fx ++ [.spawnMerge cmd_args]⟩
        | .ok runOut =>
          let flog := runOut.1 ++ "\n" ++ runOut.2.1 ++ "\n"
          let code := runOut.2.2
          let r := if write_ffmpeg_log then add_log r flog else r
          -- the muxer end-of-run scan (lines 691-712)
          let ws := env.warnMatches flog
          let r := if write_ffmpeg_log = false then log_muxer_lines ws r
            else r
          let wn := ws.length
          let wm := wn - 1
          let r := if 1 < wn ∧ code = 0 then
              add_warning r s!"FFmpeg may have reported {wm} warnings, check the log for details"
            else r
          let r := if wn < 1 ∧ code = 0 then
              add_warning r "Unable to find FFmpeg output summary."
            else r
          if code = 0 then
            let task : MergeTask := ⟨task_id, true, flog, code, cmd_args, files1⟩
            let r := add_log (add_log r
              s!"Info: FFmpeg process exited with code: {code}")
              s!"Info: Merge {input_file_index} files into {output_file} successfully"
            .ok ⟨{ r with task_count := r.task_count + 1,
                          success_count := r.success_count + 1,
                          task := r.task ++ [task] },
                 st3.counters, st3.fx ++ [.spawnMerge cmd_args]⟩
          else
            let task : MergeTask := ⟨task_id, false, flog, code, cmd_args, files1⟩
            let r := add_log (add_log r
              s!"Error: FFmpeg process terminated with code {code}")
              s!"Error: Merge {input_file_index} files into {output_file} failed"
            .ok ⟨{ r with task_count := r.task_count + 1,
                          failed_count := r.failed_count + 1,
                          task := r.task ++ [task] },
                 st3.counters, st3.fx ++ [.spawnMerge cmd_args]⟩

/-- The per-video loop. `has_fatal_error` never changes inside the loop, so
the `break` guard reduces to running the loop over the (empty, when fatal)
video list. -/
def run_tasks (env : MergeEnv) (output_folder_path : String)
    (encoding_sub disable_ffmpeg_merge write_ffmpeg_log : Bool)
    (folder_files audio_files subtitle_files : List String) (total : Nat) :
    List String → Nat → RunState → Except String (RunState × Nat)
  | [], task_id, st => .ok (st, task_id)
  | vf :: rest, task_id, st =>
    match process_task env output_folder_path encoding_sub disable_ffmpeg_merge
      write_ffmpeg_log folder_files audio_files subtitle_files total vf
      (task_id + 1) st with
    | .error e => .error e
    | .ok st1 => run_tasks env output_folder_path encoding_sub
        disable_ffmpeg_merge write_ffmpeg_log folder_files audio_files
        subtitle_files total rest (task_id + 1) st1

/-! ### The driver -/

/-- Whether one directory entry is excluded from discovery (line 337). -/
def excluded_entry (env : MergeEnv) (video_folder_path file : String) : Bool :=
  env.entryIsDir (os_join video_folder_path file) || str_startswith file "." ||
    str_startswith file "Thumbs.db" || str_startswith file "desktop.ini"

/-- The folder-validation phase (lines 281-326): the input checks, the
output-folder creation and checks. Returns the report, the effect trace and
`has_fatal_error`. -/
def validate_folders (env : MergeEnv)
    (video_folder_path output_folder_path : String)
    (disable_ffmpeg_merge : Bool) (r0 : RunReport) (fx0 : List Effect) :
    RunReport × List Effect × Bool :=
  let step1 : RunReport × Bool :=
    if env.inputExists = false then
      (add_warning r0 s!"Input folder {video_folder_path} not found", true)
    else (r0, false)
  let step2 : RunReport × Bool :=
    if step1.2 = false ∧ env.inputIsDir = false then
      (add_warning step1.1 s!"Input path {video_folder_path} is not a folder", true)
    else step1
  if disable_ffmpeg_merge = false then
    let step3 : RunReport × List Effect × Bool :=
      if step2.2 = false ∧ env.outputExists = false then
        match env.makedirs with
        | .ok _ =>
          (add_warning step2.1 s!"Output folder {output_folder_path} not found, created it",
           fx0 ++ [.makeDirs output_folder_path], step2.2)
        | .error e =>
          let w := s!"Failed to create output folder {output_folder_path}: {e}"
          ({ add_warning step2.1 w with exception := step2.1.exception ++ [e] }, fx0, true)
      else (step2.1, fx0, step2.2)
    let step4 : RunReport × Bool :=
      if step3.2.2 = false ∧ env.outputIsDir = false then
        (add_warning step3.1 s!"Output path {output_folder_path} is not a folder", true)
      else (step3.1, step3.2.2)
    let step5 : RunReport :=
      if step4.2 = false ∧ 0 < env.outputListing.length then
        add_warning step4.1 s!"Output folder {output_folder_path} is not empty"
      else step4.1
    (step5, step3.2.1, step4.2)
  else (step2.1, fx0, step2.2)

/-- The post-run unused/overused check (lines 748-761). -/
def usage_warnings (folder_files : List String) (counters : List Nat) :
    List String :=
  (folder_files.zip counters).flatMap (fun p =>
    let f := p.1
    let c := p.2
    if c = 0 then [s!"File {f} is never used"]
    else if 1 < c then [s!"File {f} is used {c} times"]
    else [])

/-- Remove a pre-existing artifact before persistence (lines 767-782); the
`os.remove` call is not inside a `try`. -/
def clear_artifact (env : MergeEnv) (enabled : Bool) (kindName path : String)
    (st : RunState) : Except String RunState :=
  if enabled ∧ env.fileExists path then
    let r := add_warning st.report
      s!"{kindName} file {path} already exists, will be overwritten"
    match env.remove path with
    | .ok _ => .ok ⟨r, st.counters, st.fx ++ [.removeFile path]⟩
    | .error e => .error e
  else .ok st

/-- `merge_video_stream` (lines 210-812). The source's `console_feedback`
flag only toggles console echo, which the model omits. -/
def merge_video_stream (env : MergeEnv)
    (video_folder_path output_folder_path : String)
    (encoding_sub disable_ffmpeg_merge write_ffmpeg_log save_log_file
      save_json_file : Bool) :
    Except String (RunReport × List Effect) :=
  let r0 : RunReport := ⟨0, 0, 0, 0, [], [], [], []⟩
  let v := validate_folders env video_folder_path output_folder_path
    disable_ffmpeg_merge r0 []
  let r1 := v.1
  let fx1 := v.2.1
  let has_fatal_error := v.2.2
  -- discovery (lines 328-346)
  let listing := if has_fatal_error then [] else env.folderListing
  let exLogs := (listing.filter (fun f => excluded_entry env video_folder_path f)).map
    (fun f =>
      let p := os_join video_folder_path f
      s!"Info: Exclude {p} in the input folder")
  let r2 := { r1 with output_log := r1.output_log ++ exLogs }
  let folder_files := listing.filter (fun f => !excluded_entry env video_folder_path f)
  let video_files := (folder_files.filter (fun f => str_endswith f ".mp4" ||
    str_endswith f ".mkv" || str_endswith f ".rmvb" || str_endswith f ".flv")).map
    (fun f => os_join video_folder_path f)
  let audio_files := (folder_files.filter (fun f => str_endswith f ".mp3" ||
    str_endswith f ".flac" || str_endswith f ".wav" || str_endswith f ".mka")).map
    (fun f => os_join video_folder_path f)
  let subtitle_files := (folder_files.filter (fun f => str_endswith f ".srt" ||
    str_endswith f ".ass" || str_endswith f ".sup")).map
    (fun f => os_join video_folder_path f)
  let counters0 := List.replicate folder_files.length 0
  match run_tasks env output_folder_path encoding_sub disable_ffmpeg_merge
    write_ffmpeg_log folder_files audio_files subtitle_files video_files.length
    video_files 0 ⟨r2, counters0, fx1⟩ with
  | .error e => .error e
  | .ok loopOut =>
    let st := loopOut.1
    let task_id := loopOut.2
    let r3 := if has_fatal_error = false then
        add_warning_list st.report (usage_warnings folder_files st.counters)
      else st.report
    let log_file := os_join output_folder_path "output.log"
    let json_file := os_join output_folder_path "output.json"
    let cleared : Except String RunState :=
      if disable_ffmpeg_merge = false ∧ has_fatal_error = false then
        match clear_artifact env save_log_file "Log" log_file ⟨r3, st.counters, st.fx⟩ with
        | .error e => .error e
        | .ok stL => clear_artifact env save_json_file "JSON" json_file stL
      else .ok ⟨r3, st.counters, st.fx⟩
    match cleared with
    | .error e => .error e
    | .ok st4 =>
      let r5 := if task_id = 0 ∧ has_fatal_error = false then
          add_warning st4.report "No task is executed"
        else st4.report
      let tc := r5.task_count
      let sc := r5.success_count
      let fc := r5.failed_count
      let wc := r5.warning_count
      let r6 := add_log r5 s!"Info: {tc} tasks done, {sc} success, {fc} failed, {wc} warnings"
      -- persistence (lines 795-810); open/write failures are caught and only echoed
      let fx6 := st4.fx
      let fx7 := if disable_ffmpeg_merge = false ∧ has_fatal_error = false ∧
          save_log_file = true then
          match env.write log_file with
          | .ok _ => fx6 ++ [.writeFile log_file]
          | .error _ => fx6
        else fx6
      let fx8 := if disable_ffmpeg_merge = false ∧ has_fatal_error = false ∧
          save_json_file = true then
          match env.write json_file with
          | .ok _ => fx7 ++ [.writeFile json_file]
          | .error _ => fx7
        else fx7
      .ok (r6, fx8)

/-! ## Claims about `is_prefix_matching` -/

theorem max_common_start_symm (a b : List Char) :
    max_common_start a b = max_common_start b a := by
  induction a generalizing b with
  | nil => cases b <;> rfl
  | cons x xs ih =>
    cases b with
    | nil => rfl
    | cons y ys =>
      simp only [max_common_start]
      rcases eq_or_ne x y with h | h
      · subst h
        simp [ih]
      · simp [h, Ne.symm h]

theorem max_common_start_prefix_left (a b : List Char) :
    max_common_start a b <+: a := by
  induction a generalizing b with
  | nil => cases b <;> simp [max_common_start]
  | cons x xs ih =>
    cases b with
    | nil => simp [max_common_start]
    | cons y ys =>
      simp only [max_common_start]
      split
      · exact (List.prefix_cons_inj x).mpr (ih ys)
      · exact List.nil_prefix

theorem max_common_start_prefix_right (a b : List Char) :
    max_common_start a b <+: b := by
  rw [max_common_start_symm]
  exact max_common_start_prefix_left b a

theorem max_common_start_greatest (p a b : List Char)
    (ha : p <+: a) (hb : p <+: b) : p <+: max_common_start a b := by
  induction p generalizing a b with
  | nil => exact List.nil_prefix
  | cons c p' ih =>
    obtain ⟨ta, rfl⟩ := ha
    obtain ⟨tb, hb'⟩ := hb
    cases b with
    | nil => simp at hb'
    | cons y ys =>
      obtain ⟨rfl, hys⟩ : c = y ∧ p' ++ tb = ys := by
        simpa using hb'
      simp only [List.cons_append, max_common_start, if_pos rfl]
      exact (List.prefix_cons_inj c).mpr (ih _ _ (List.prefix_append p' ta) ⟨tb, hys⟩)

/-- C9: `is_prefix_matching` returns the same triple on swapped arguments. -/
theorem C9_is_prefix_matching_symmetric (a b : String) :
    is_prefix_matching a b = is_prefix_matching b a := by
  by_cases hab : a.length > b.length
  · have hba : ¬ b.length > a.length := by omega
    rw [is_prefix_matching, is_prefix_matching, if_pos hab, if_neg hba]
    by_cases hpre : b.data.isPrefixOf a.data
    · rw [if_pos hpre, if_pos hpre]
    · rw [if_neg hpre, if_neg hpre, max_common_start_symm]
  · by_cases hba : b.length > a.length
    · rw [is_prefix_matching, is_prefix_matching, if_neg hab, if_pos hba]
      by_cases hpre : a.data.isPrefixOf b.data
      · rw [if_pos hpre, if_pos hpre]
      · rw [if_neg hpre, if_neg hpre, max_common_start_symm]
    · have hlen : a.data.length = b.data.length := by
        have h1 : a.length = a.data.length := rfl
        have h2 : b.length = b.data.length := rfl
        omega
      rw [is_prefix_matching, is_prefix_matching, if_neg hab, if_neg hba]
      by_cases hpre : a.data.isPrefixOf b.data
      · have heq : a = b := String.ext
          ((List.isPrefixOf_iff_prefix.mp hpre).eq_of_length hlen)
        subst heq
        rfl
      · have hpre' : ¬ b.data.isPrefixOf a.data := by
          intro hc
          exact hpre (by
            have heq := (List.isPrefixOf_iff_prefix.mp hc).eq_of_length hlen.symm
            rw [heq]
            exact List.isPrefixOf_iff_prefix.mpr (List.prefix_refl _))
        rw [if_neg hpre, if_neg hpre', max_common_start_symm]

/-- C3: `is_prefix_matching` matches exactly when one input is a prefix of
the other; on success it returns the longer string and the part of the
longer beyond the shorter; on failure the empty string and the longest
common leading substring. -/
theorem C3_is_prefix_matching_contract (a b : String) :
    ((is_prefix_matching a b).1 = true ↔ (a.data <+: b.data ∨ b.data <+: a.data)) ∧
    ((is_prefix_matching a b).1 = true →
      ((is_prefix_matching a b).2.1 = a ∨ (is_prefix_matching a b).2.1 = b) ∧
      (is_prefix_matching a b).2.1.length = max a.length b.length ∧
      (is_prefix_matching a b).2.2.data =
        (is_prefix_matching a b).2.1.data.drop (min a.length b.length)) ∧
    ((is_prefix_matching a b).1 = false →
      (is_prefix_matching a b).2.1 = "" ∧
      (is_prefix_matching a b).2.2.data <+: a.data ∧
      (is_prefix_matching a b).2.2.data <+: b.data ∧
      ∀ p : List Char, p <+: a.data → p <+: b.data →
        p <+: (is_prefix_matching a b).2.2.data) := by
  have hlenA : a.length = a.data.length := rfl
  have hlenB : b.length = b.data.length := rfl
  by_cases hab : a.length > b.length
  · by_cases hpre : b.data.isPrefixOf a.data
    · have hr : is_prefix_matching a b = (true, a, ⟨a.data.drop b.length⟩) := by
        rw [is_prefix_matching, if_pos hab, if_pos hpre]
      rw [hr]
      refine ⟨⟨fun _ => Or.inr (List.isPrefixOf_iff_prefix.mp hpre), fun _ => rfl⟩,
        fun _ => ⟨Or.inl rfl, ?_, ?_⟩, fun h => by simp at h⟩
      · show a.length = max a.length b.length
        omega
      · rw [Nat.min_eq_right (Nat.le_of_lt hab)]
    · have hr : is_prefix_matching a b = (false, "", ⟨max_common_start a.data b.data⟩) := by
        rw [is_prefix_matching, if_pos hab, if_neg hpre]
      rw [hr]
      refine ⟨⟨fun h => by simp at h, fun h => ?_⟩, fun h => by simp at h,
        fun _ => ⟨rfl, max_common_start_prefix_left a.data b.data,
          max_common_start_prefix_right a.data b.data,
          fun p hpa hpb => max_common_start_greatest p a.data b.data hpa hpb⟩⟩
      rcases h with h | h
      · have := h.length_le
        omega
      · exact absurd (List.isPrefixOf_iff_prefix.mpr h) hpre
  · by_cases hpre : a.data.isPrefixOf b.data
    · have hr : is_prefix_matching a b = (true, b, ⟨b.data.drop a.length⟩) := by
        rw [is_prefix_matching, if_neg hab, if_pos hpre]
      rw [hr]
      refine ⟨⟨fun _ => Or.inl (List.isPrefixOf_iff_prefix.mp hpre), fun _ => rfl⟩,
        fun _ => ⟨Or.inr rfl, ?_, ?_⟩, fun h => by simp at h⟩
      · show b.length = max a.length b.length
        omega
      · rw [Nat.min_eq_left (Nat.le_of_not_lt hab)]
    · have hr : is_prefix_matching a b = (false, "", ⟨max_common_start a.data b.data⟩) := by
        rw [is_prefix_matching, if_neg hab, if_neg hpre]
      rw [hr]
      refine ⟨⟨fun h => by simp at h, fun h => ?_⟩, fun h => by simp at h,
        fun _ => ⟨rfl, max_common_start_prefix_left a.data b.data,
          max_common_start_prefix_right a.data b.data,
          fun p hpa hpb => max_common_start_greatest p a.data b.data hpa hpb⟩⟩
      rcases h with h | h
      · exact absurd (List.isPrefixOf_iff_prefix.mpr h) hpre
      · have hle := h.length_le
        have heq : b.data = a.data := h.eq_of_length (by omega)
        exact absurd (List.isPrefixOf_iff_prefix.mpr (heq ▸ List.prefix_refl b.data)) hpre

/-! ## Claim about the language-tag normalization -/

theorem str_find_char_none {c : Char} {l : List Char}
    (h : str_find_char c l = none) : c ∉ l := by
  induction l with
  | nil => simp
  | cons x xs ih =>
    rw [str_find_char] at h
    split at h
    · simp at h
    · rename_i hx
      rcases hfind : str_find_char c xs with _ | j
      · simp only [List.mem_cons]
        rintro (rfl | hmem)
        · exact hx rfl
        · exact ih hfind hmem
      · rw [hfind] at h
        simp at h

theorem cut_at_first_paren_eq_dropWhile {l : List Char} (h : '(' ∈ l) :
    cut_at_first_paren l = l.dropWhile (fun c => c != '(') := by
  induction l with
  | nil => simp at h
  | cons x xs ih =>
    rw [cut_at_first_paren, str_find_char]
    by_cases hx : x = '('
    · subst hx
      simp [List.dropWhile]
    · have hmem : '(' ∈ xs := by
        rcases List.mem_cons.mp h with rfl | hm
        · exact absurd rfl hx
        · exact hm
      rcases hfind : str_find_char '(' xs with _ | j
      · exact absurd hmem (str_find_char_none hfind)
      · have hbx : (x != '(') = true := by simp [hx]
        rw [if_neg hx]
        show List.drop (j + 1) (x :: xs) = List.dropWhile (fun c => c != '(') (x :: xs)
        rw [List.drop_succ_cons, List.dropWhile_cons, if_pos hbx]
        have hprev := ih hmem
        rw [cut_at_first_paren, hfind] at hprev
        exact hprev

theorem head?_dropWhile_ne {l : List Char} (h : '(' ∈ l) :
    (l.dropWhile (fun c => c != '(')).head? = some '(' := by
  induction l with
  | nil => simp at h
  | cons x xs ih =>
    by_cases hx : x = '('
    · subst hx
      simp [List.dropWhile]
    · have hmem : '(' ∈ xs := by
        rcases List.mem_cons.mp h with rfl | hm
        · exact absurd rfl hx
        · exact hm
      have hbx : (x != '(') = true := by simp [hx]
      rw [List.dropWhile_cons, if_pos hbx]
      exact ih hmem

theorem getLast?_dropWhile_ne {l : List Char} (h : '(' ∈ l) :
    (l.dropWhile (fun c => c != '(')).getLast? = l.getLast? := by
  induction l with
  | nil => simp at h
  | cons x xs ih =>
    by_cases hx : x = '('
    · subst hx
      simp [List.dropWhile]
    · have hmem : '(' ∈ xs := by
        rcases List.mem_cons.mp h with rfl | hm
        · exact absurd rfl hx
        · exact hm
      have hbx : (x != '(') = true := by simp [hx]
      rw [List.dropWhile_cons, if_pos hbx, ih hmem]
      cases xs with
      | nil => simp at hmem
      | cons y ys => rw [List.getLast?_cons_cons]

/-- C7, the claim's side: an empty tag becomes `und`; a tag with a trailing
parenthesized group — it ends in `)` and holds a `(`, the group running from
the first `(` to that trailing `)` — has the group extracted and its two
parentheses removed; any other tag is kept as captured and flagged. -/
def language_tag_as_specified (lang : String) : String × Bool :=
  if lang.data = [] then ("und", false)
  else if lang.data.getLast? = some ')' ∧ '(' ∈ lang.data then
    (⟨((lang.data.dropWhile (fun c => c != '(')).drop 1).dropLast⟩, false)
  else (lang, true)

theorem str_find_char_some_mem {c : Char} {l : List Char} {i : Nat}
    (h : str_find_char c l = some i) : c ∈ l := by
  induction l generalizing i with
  | nil => simp [str_find_char] at h
  | cons x xs ih =>
    rw [str_find_char] at h
    split at h
    · rename_i hx
      exact List.mem_cons.mpr (Or.inl hx.symm)
    · rcases hfind : str_find_char c xs with _ | j
      · rw [hfind] at h
        simp at h
      · exact List.mem_cons.mpr (Or.inr (ih hfind))

theorem cut_at_first_paren_of_not_mem {l : List Char} (h : '(' ∉ l) :
    cut_at_first_paren l = l := by
  rcases hfind : str_find_char '(' l with _ | i
  · rw [cut_at_first_paren, hfind]
  · exact absurd (str_find_char_some_mem hfind) h

/-- C7: for every parsed stream line, the language tag is normalized exactly
as the specification states: empty becomes `und`, a trailing parenthesized
group is extracted and unwrapped, and any other tag is kept as captured with
the "unexpected language code" warning flagged. -/
theorem C7_language_tag_normalized_as_specified (lang : String) :
    normalize_language lang = language_tag_as_specified lang := by
  obtain ⟨l⟩ := lang
  by_cases hnil : l = []
  · subst hnil
    rfl
  · by_cases hcond : l.getLast? = some ')' ∧ '(' ∈ l
    · obtain ⟨hlast, hmem⟩ := hcond
      have hD := cut_at_first_paren_eq_dropWhile hmem
      have hfinal : (l.dropWhile (fun c => c != '(')).head? = some '(' ∧
          (l.dropWhile (fun c => c != '(')).getLast? = some ')' :=
        ⟨head?_dropWhile_ne hmem, by rw [getLast?_dropWhile_ne hmem]; exact hlast⟩
      have hN : normalize_lang_chars l =
          (((l.dropWhile (fun c => c != '(')).drop 1).dropLast, false) := by
        simp only [normalize_lang_chars]
        rw [if_neg hnil, if_pos hlast, hD, if_pos hfinal]
      have hS : language_tag_as_specified ⟨l⟩ =
          (⟨((l.dropWhile (fun c => c != '(')).drop 1).dropLast⟩, false) := by
        simp only [language_tag_as_specified]
        rw [if_neg hnil, if_pos (⟨hlast, hmem⟩ : _ ∧ _)]
      rw [hS]
      show ((⟨(normalize_lang_chars l).1⟩ : String), (normalize_lang_chars l).2) = _
      rw [hN]
    · have hN : normalize_lang_chars l = (l, true) := by
        by_cases hlast : l.getLast? = some ')'
        · have hmem : '(' ∉ l := fun hm => hcond ⟨hlast, hm⟩
          have hcut := cut_at_first_paren_of_not_mem hmem
          have hno : ¬ (l.head? = some '(' ∧ l.getLast? = some ')') := by
            rintro ⟨hh, _⟩
            exact hmem (by
              cases hl : l with
              | nil => exact absurd hl hnil
              | cons x xs =>
                rw [hl] at hh
                simp at hh
                simp [hl, hh])
          simp only [normalize_lang_chars]
          rw [if_neg hnil, if_pos hlast, hcut, if_neg hno]
        · have hno : ¬ (l.head? = some '(' ∧ l.getLast? = some ')') := by
            rintro ⟨_, hlast'⟩
            exact hlast hlast'
          simp only [normalize_lang_chars]
          rw [if_neg hnil, if_neg hlast, if_neg hno]
      have hS : language_tag_as_specified ⟨l⟩ = (⟨l⟩, true) := by
        simp only [language_tag_as_specified]
        rw [if_neg hnil, if_neg hcond]
      rw [hS]
      show ((⟨(normalize_lang_chars l).1⟩ : String), (normalize_lang_chars l).2) = _
      rw [hN]

/-! ## Claims about the probe result -/

/-- C10: the probe's `is_success` flag holds exactly when the path exists
and is a regular file; the subprocess outcome, a spawn exception and an
empty parse only ever add warnings. -/
theorem C10_probe_success_iff_regular_file (env : ProbeEnv) (path : String) :
    (get_video_stream env path).1.is_success = (env.pathExists && env.pathIsFile) := by
  cases h1 : env.pathExists <;> cases h2 : env.pathIsFile <;>
    simp [get_video_stream, h1, h2]

/-- The tasks a run's caller receives: none when the engine raised. -/
def producedTasks (res : Except String (RunReport × List Effect)) : List MergeTask :=
  match res with
  | .ok p => p.1.task
  | .error _ => []

/-- The report a run's caller receives, when the engine did not raise. -/
def producedReport (res : Except String (RunReport × List Effect)) : Option RunReport :=
  match res with
  | .ok p => some p.1
  | .error _ => none

/-- The effect trace of a run that completed. -/
def producedFx (res : Except String (RunReport × List Effect)) : List Effect :=
  match res with
  | .ok p => p.2
  | .error _ => []

/-! Concrete worlds used by witnesses and counterexamples. -/

/-- A probe world: the file exists, the inspection command exits with
code 2, its text holds no stream line. -/
def probe_exit2 : ProbeEnv := ⟨true, true, .ok ("", "", 2), fun _ => []⟩

/-- A merge world with one video file whose probe is `probe_exit2`. -/
def merge_env_exit2 : MergeEnv :=
  { inputExists := true, inputIsDir := true, outputExists := true,
    makedirs := .ok (), outputIsDir := true, outputListing := [],
    folderListing := ["A.mkv"], entryIsDir := fun _ => false,
    probe := fun _ => probe_exit2,
    fileExists := fun _ => false, remove := fun _ => .ok (),
    run := fun _ => .ok ("", "", 0),
    warnMatches := fun _ => [("out#0/matroska", "0123456789abcdef", "muxing overhead")],
    write := fun _ => .ok () }

/-- C4, counterexample: with exit code 2 and no stream text the probe
records two warnings, not exactly one — the exit-code warning and the
zero-streams warning. -/
theorem C4_counterexample_two_warnings :
    ¬ ((get_video_stream probe_exit2 "in/A.mkv").1.warning_count = 1) := by
  decide

/-- C4, amended: a probe of an existing regular file whose command exits
with a code other than 0 and 1 and emits no stream line yields an empty
stream list, records exactly two warnings — the unexpected-exit-code
warning and the zero-streams warning — still reports success, and the
surrounding run continues: on such a probe the merge loop completes and
still produces its task. -/
theorem C4_exit2_probe_amended (env : ProbeEnv) (path out err : String) (c : Int)
    (hex : env.pathExists = true) (hfl : env.pathIsFile = true)
    (hrun : env.runResult = .ok (out, err, c)) (h0 : c ≠ 0) (h1 : c ≠ 1)
    (hcaps : env.findall (out ++ "\n" ++ err ++ "\n") = []) :
    (get_video_stream env path).1.stream_info = [] ∧
    (get_video_stream env path).1.warning_count = 2 ∧
    (get_video_stream env path).1.warning_list =
      [s!"FFmpeg process terminated with code {c}",
       s!"No stream found for {os_basename path}"] ∧
    (get_video_stream env path).1.is_success = true ∧
    (producedTasks (merge_video_stream merge_env_exit2 "in" "out"
      true false false true false)).length = 1 ∧
    (producedReport (merge_video_stream merge_env_exit2 "in" "out"
      true false false true false)).isSome = true := by
  have hcode : ¬ (c = 0 ∨ c = 1) := by
    rintro (rfl | rfl)
    · exact h0 rfl
    · exact h1 rfl
  simp only [get_video_stream, hex, hfl, hrun, os_abspath, if_neg hcode, hcaps,
    parse_captures]
  refine ⟨rfl, rfl, rfl, rfl, by decide, by decide⟩

theorem C4_exit2_probe_amended_witness :
    (get_video_stream probe_exit2 "in/A.mkv").1.stream_info = [] ∧
    (get_video_stream probe_exit2 "in/A.mkv").1.warning_count = 2 ∧
    (get_video_stream probe_exit2 "in/A.mkv").1.warning_list =
      ["FFmpeg process terminated with code 2",
       "No stream found for A.mkv"] ∧
    (get_video_stream probe_exit2 "in/A.mkv").1.is_success = true ∧
    (producedTasks (merge_video_stream merge_env_exit2 "in" "out"
      true false false true false)).length = 1 ∧
    (producedReport (merge_video_stream merge_env_exit2 "in" "out"
      true false false true false)).isSome = true :=
  C4_exit2_probe_amended probe_exit2 "in/A.mkv" "" "" 2 rfl rfl rfl
    (by decide) (by decide) rfl

/-! ## Claim C2: task accounting

The three task counters change only at the task-recording branches of
`process_task`; every other phase keeps them. -/

@[simp] theorem add_warning_task_count (r : RunReport) (m : String) :
    (add_warning r m).task_count = r.task_count := rfl

@[simp] theorem add_warning_success_count (r : RunReport) (m : String) :
    (add_warning r m).success_count = r.success_count := rfl

@[simp] theorem add_warning_failed_count (r : RunReport) (m : String) :
    (add_warning r m).failed_count = r.failed_count := rfl

@[simp] theorem add_warning_task (r : RunReport) (m : String) :
    (add_warning r m).task = r.task := rfl

@[simp] theorem add_log_task_count (r : RunReport) (m : String) :
    (add_log r m).task_count = r.task_count := rfl

@[simp] theorem add_log_success_count (r : RunReport) (m : String) :
    (add_log r m).success_count = r.success_count := rfl

@[simp] theorem add_log_failed_count (r : RunReport) (m : String) :
    (add_log r m).failed_count = r.failed_count := rfl

@[simp] theorem add_log_task (r : RunReport) (m : String) :
    (add_log r m).task = r.task := rfl

@[simp] theorem add_warning_list_task_count (ws : List String) (r : RunReport) :
    (add_warning_list r ws).task_count = r.task_count := by
  induction ws generalizing r with
  | nil => rfl
  | cons w rest ih =>
    have h : add_warning_list r (w :: rest) = add_warning_list (add_warning r w) rest := rfl
    rw [h, ih]
    exact add_warning_task_count r w

@[simp] theorem add_warning_list_success_count (ws : List String) (r : RunReport) :
    (add_warning_list r ws).success_count = r.success_count := by
  induction ws generalizing r with
  | nil => rfl
  | cons w rest ih =>
    have h : add_warning_list r (w :: rest) = add_warning_list (add_warning r w) rest := rfl
    rw [h, ih]
    exact add_warning_success_count r w

@[simp] theorem add_warning_list_failed_count (ws : List String) (r : RunReport) :
    (add_warning_list r ws).failed_count = r.failed_count := by
  induction ws generalizing r with
  | nil => rfl
  | cons w rest ih =>
    have h : add_warning_list r (w :: rest) = add_warning_list (add_warning r w) rest := rfl
    rw [h, ih]
    exact add_warning_failed_count r w

@[simp] theorem add_warning_list_task (ws : List String) (r : RunReport) :
    (add_warning_list r ws).task = r.task := by
  induction ws generalizing r with
  | nil => rfl
  | cons w rest ih =>
    have h : add_warning_list r (w :: rest) = add_warning_list (add_warning r w) rest := rfl
    rw [h, ih]
    exact add_warning_task r w

theorem ingest_input_file_counts (env : MergeEnv) (ff : List String)
    (ctx : SrcKind) (path : String) (fi : Nat) (st : RunState) :
    ((ingest_input_file env ff ctx path fi st).2.2.report.task_count =
        st.report.task_count ∧
      (ingest_input_file env ff ctx path fi st).2.2.report.success_count =
        st.report.success_count ∧
      (ingest_input_file env ff ctx path fi st).2.2.report.failed_count =
        st.report.failed_count) ∧
      (ingest_input_file env ff ctx path fi st).2.2.report.task =
        st.report.task := by
  unfold ingest_input_file
  dsimp only
  split <;> simp

theorem ingest_matching_counts (env : MergeEnv) (ff : List String)
    (ctx : SrcKind) (vf : String) (cands : List String) (fi : Nat)
    (st : RunState) :
    ((ingest_matching env ff ctx vf cands fi st).2.2.2.2.report.task_count =
        st.report.task_count ∧
      (ingest_matching env ff ctx vf cands fi st).2.2.2.2.report.success_count =
        st.report.success_count ∧
      (ingest_matching env ff ctx vf cands fi st).2.2.2.2.report.failed_count =
        st.report.failed_count) ∧
      (ingest_matching env ff ctx vf cands fi st).2.2.2.2.report.task =
        st.report.task := by
  induction cands generalizing fi st with
  | nil => exact ⟨⟨rfl, rfl, rfl⟩, rfl⟩
  | cons cand rest ih =>
    rw [ingest_matching]
    split
    · dsimp only
      have h1 := ingest_input_file_counts env ff ctx cand fi st
      have h2 := ih (fi + 1) (ingest_input_file env ff ctx cand fi st).2.2
      exact ⟨⟨h2.1.1.trans h1.1.1, h2.1.2.1.trans h1.1.2.1,
        h2.1.2.2.trans h1.1.2.2⟩, h2.2.trans h1.2⟩
    · exact ih fi st

theorem build_task_counts (env : MergeEnv) (ofp : String) (es : Bool)
    (ff af sf : List String) (vf : String) (tid : Nat) (st1 : RunState)
    (out : List InputFile × List String × String × Nat × RunState)
    (h : build_task env ofp es ff af sf vf tid st1 = some out) :
    (out.2.2.2.2.report.task_count = st1.report.task_count ∧
      out.2.2.2.2.report.success_count = st1.report.success_count ∧
      out.2.2.2.2.report.failed_count = st1.report.failed_count) ∧
    out.2.2.2.2.report.task = st1.report.task := by
  have hv := ingest_input_file_counts env ff .videoSrc vf 0 st1
  have ha := ingest_matching_counts env ff .audioSrc vf af 1
    (ingest_input_file env ff .videoSrc vf 0 st1).2.2
  have hs := ingest_matching_counts env ff .subtitleSrc vf sf
    (ingest_matching env ff .audioSrc vf af 1
      (ingest_input_file env ff .videoSrc vf 0 st1).2.2).2.2.2.1
    (ingest_matching env ff .audioSrc vf af 1
      (ingest_input_file env ff .videoSrc vf 0 st1).2.2).2.2.2.2
  unfold build_task at h
  dsimp only at h
  split at h
  · exact absurd h (by simp)
  · rename_i files1 heq
    rw [Option.some_inj] at h
    subst h
    dsimp only
    refine ⟨⟨?_, ?_, ?_⟩, ?_⟩ <;>
      · split_ifs <;>
          (try simp only [add_warning_task_count, add_warning_success_count,
            add_warning_failed_count, add_warning_task]) <;>
          first
            | omega
            | exact hs.2.trans (ha.2.trans hv.2)

theorem remove_existing_output_counts (env : MergeEnv) (dis : Bool)
    (pathO : String) (st2 st3 : RunState)
    (h : remove_existing_output env dis pathO st2 = .ok st3) :
    (st3.report.task_count = st2.report.task_count ∧
      st3.report.success_count = st2.report.success_count ∧
      st3.report.failed_count = st2.report.failed_count) ∧
    st3.report.task = st2.report.task := by
  unfold remove_existing_output at h
  split at h
  · split at h
    · rw [Except.ok.injEq] at h
      subst h
      exact ⟨⟨rfl, rfl, rfl⟩, rfl⟩
    · exact absurd h (by simp)
  · rw [Except.ok.injEq] at h
    subst h
    exact ⟨⟨rfl, rfl, rfl⟩, rfl⟩

@[simp] theorem log_muxer_lines_task_count
    (ws : List (String × String × String)) (r : RunReport) :
    (log_muxer_lines ws r).task_count = r.task_count := by
  induction ws generalizing r with
  | nil => rfl
  | cons w rest ih =>
    have h : log_muxer_lines (w :: rest) r =
        log_muxer_lines rest (add_log r s!"Info: FFmpeg: [{w.1} @ {w.2.1}] {w.2.2}") := rfl
    rw [h, ih]
    rfl

@[simp] theorem log_muxer_lines_success_count
    (ws : List (String × String × String)) (r : RunReport) :
    (log_muxer_lines ws r).success_count = r.success_count := by
  induction ws generalizing r with
  | nil => rfl
  | cons w rest ih =>
    have h : log_muxer_lines (w :: rest) r =
        log_muxer_lines rest (add_log r s!"Info: FFmpeg: [{w.1} @ {w.2.1}] {w.2.2}") := rfl
    rw [h, ih]
    rfl

@[simp] theorem log_muxer_lines_failed_count
    (ws : List (String × String × String)) (r : RunReport) :
    (log_muxer_lines ws r).failed_count = r.failed_count := by
  induction ws generalizing r with
  | nil => rfl
  | cons w rest ih =>
    have h : log_muxer_lines (w :: rest) r =
        log_muxer_lines rest (add_log r s!"Info: FFmpeg: [{w.1} @ {w.2.1}] {w.2.2}") := rfl
    rw [h, ih]
    rfl

@[simp] theorem log_muxer_lines_task
    (ws : List (String × String × String)) (r : RunReport) :
    (log_muxer_lines ws r).task = r.task := by
  induction ws generalizing r with
  | nil => rfl
  | cons w rest ih =>
    have h : log_muxer_lines (w :: rest) r =
        log_muxer_lines rest (add_log r s!"Info: FFmpeg: [{w.1} @ {w.2.1}] {w.2.2}") := rfl
    rw [h, ih]
    rfl

theorem process_task_counts (env : MergeEnv) (ofp : String)
    (es dis wfl : Bool) (ff af sf : List String) (total : Nat) (vf : String)
    (tid : Nat) (st0 st' : RunState)
    (h : process_task env ofp es dis wfl ff af sf total vf tid st0 = .ok st') :
    st'.report.task_count = st0.report.task_count + 1 ∧
    st'.report.success_count + st'.report.failed_count =
      st0.report.success_count + st0.report.failed_count + 1 := by
  unfold process_task at h
  dsimp only at h
  split at h
  · exact absurd h (by simp)
  · rename_i built heq
    have hc := build_task_counts env ofp es ff af sf vf tid _ built heq
    dsimp only at hc
    simp only [add_log_task_count, add_log_success_count, add_log_failed_count,
      add_log_task] at hc
    split at h
    · exact absurd h (by simp)
    · rename_i st3 heq3
      have hr := remove_existing_output_counts env dis built.2.2.1 built.2.2.2.2 st3 heq3
      split at h
      · rw [Except.ok.injEq] at h
        subst h
        dsimp only
        refine ⟨?_, ?_⟩ <;>
          (simp only [add_log_task_count, add_log_success_count,
            add_log_failed_count]; omega)
      · split at h
        · rw [Except.ok.injEq] at h
          subst h
          dsimp only
          refine ⟨?_, ?_⟩ <;>
            (simp only [add_log_task_count, add_log_success_count,
              add_log_failed_count]; omega)
        · split at h
          · rw [Except.ok.injEq] at h
            subst h
            dsimp only
            refine ⟨?_, ?_⟩ <;>
              (try split_ifs) <;>
              (simp only [add_warning_task_count, add_warning_success_count,
                add_warning_failed_count, add_log_task_count,
                add_log_success_count, add_log_failed_count,
                log_muxer_lines_task_count, log_muxer_lines_success_count,
                log_muxer_lines_failed_count]; omega)
          · rw [Except.ok.injEq] at h
            subst h
            dsimp only
            refine ⟨?_, ?_⟩ <;>
              (try split_ifs) <;>
              (simp only [add_warning_task_count, add_warning_success_count,
                add_warning_failed_count, add_log_task_count,
                add_log_success_count, add_log_failed_count,
                log_muxer_lines_task_count, log_muxer_lines_success_count,
                log_muxer_lines_failed_count]; omega)

theorem run_tasks_counts (env : MergeEnv) (ofp : String) (es dis wfl : Bool)
    (ff af sf : List String) (total : Nat) (vfs : List String) (tid : Nat)
    (st : RunState) (out : RunState × Nat)
    (h : run_tasks env ofp es dis wfl ff af sf total vfs tid st = .ok out) :
    out.1.report.task_count = st.report.task_count + vfs.length ∧
    out.1.report.success_count + out.1.report.failed_count =
      st.report.success_count + st.report.failed_count + vfs.length ∧
    out.2 = tid + vfs.length := by
  induction vfs generalizing tid st with
  | nil =>
    rw [run_tasks, Except.ok.injEq] at h
    subst h
    exact ⟨rfl, rfl, rfl⟩
  | cons vf rest ih =>
    rw [run_tasks] at h
    split at h
    · exact absurd h (by simp)
    · rename_i st1 hstep
      have h1 := process_task_counts env ofp es dis wfl ff af sf total vf
        (tid + 1) st st1 hstep
      have h2 := ih (tid + 1) st1 h
      refine ⟨?_, ?_, ?_⟩ <;> simp only [List.length_cons] <;> omega

theorem clear_artifact_counts (env : MergeEnv) (enabled : Bool)
    (kn pathA : String) (st st' : RunState)
    (h : clear_artifact env enabled kn pathA st = .ok st') :
    (st'.report.task_count = st.report.task_count ∧
      st'.report.success_count = st.report.success_count ∧
      st'.report.failed_count = st.report.failed_count) ∧
    st'.report.task = st.report.task := by
  unfold clear_artifact at h
  split at h
  · split at h
    · rw [Except.ok.injEq] at h
      subst h
      exact ⟨⟨rfl, rfl, rfl⟩, rfl⟩
    · exact absurd h (by simp)
  · rw [Except.ok.injEq] at h
    subst h
    exact ⟨⟨rfl, rfl, rfl⟩, rfl⟩

theorem validate_folders_counts (env : MergeEnv) (vfp ofp : String)
    (dis : Bool) (r0 : RunReport) (fx0 : List Effect) :
    ((validate_folders env vfp ofp dis r0 fx0).1.task_count = r0.task_count ∧
      (validate_folders env vfp ofp dis r0 fx0).1.success_count = r0.success_count ∧
      (validate_folders env vfp ofp dis r0 fx0).1.failed_count = r0.failed_count) ∧
    (validate_folders env vfp ofp dis r0 fx0).1.task = r0.task := by
  unfold validate_folders
  cases hmk : env.makedirs <;>
    simp [apply_ite RunReport.task_count, apply_ite RunReport.success_count,
      apply_ite RunReport.failed_count, apply_ite RunReport.task,
      apply_ite Prod.fst, apply_ite Prod.snd, ite_self]

/-- Whether a completed run's report satisfies
`task_count == success_count + failed_count`; an aborted run has no report
to check. -/
def report_balanced (res : Except String (RunReport × List Effect)) : Bool :=
  match res with
  | .ok p => p.1.task_count == p.1.success_count + p.1.failed_count
  | .error _ => true

/-- C2: every report `merge_video_stream` returns satisfies
`task_count = success_count + failed_count`, across dry-run, live success,
live failure, spawn exception and the fatal-error path with zero tasks. -/
theorem C2_task_count_is_success_plus_failed (env : MergeEnv)
    (vfp ofp : String) (es dis wfl slf sjf : Bool) :
    report_balanced (merge_video_stream env vfp ofp es dis wfl slf sjf) = true := by
  unfold merge_video_stream
  dsimp only
  split
  · rfl
  · rename_i loopOut hloop
    have hv := validate_folders_counts env vfp ofp dis ⟨0, 0, 0, 0, [], [], [], []⟩ []
    have hrt := run_tasks_counts _ _ _ _ _ _ _ _ _ _ _ _ _ hloop
    dsimp only at hrt hv
    split
    · rfl
    · rename_i st4 hclr
      have hst4 : (st4.report.task_count = loopOut.1.report.task_count ∧
          st4.report.success_count = loopOut.1.report.success_count ∧
          st4.report.failed_count = loopOut.1.report.failed_count) := by
        by_cases hcond : dis = false ∧
            (validate_folders env vfp ofp dis ⟨0, 0, 0, 0, [], [], [], []⟩ []).2.2 = false
        · rw [if_pos hcond] at hclr
          split at hclr
          · exact absurd hclr (by simp)
          · rename_i stL hclr1
            have h1 := clear_artifact_counts _ _ _ _ _ _ hclr1
            have h2 := clear_artifact_counts _ _ _ _ _ _ hclr
            dsimp only at h1
            simp only [apply_ite RunReport.task_count,
              apply_ite RunReport.success_count, apply_ite RunReport.failed_count,
              add_warning_list_task_count, add_warning_list_success_count,
              add_warning_list_failed_count, ite_self] at h1
            refine ⟨?_, ?_, ?_⟩ <;> omega
        · rw [if_neg hcond, Except.ok.injEq] at hclr
          subst hclr
          dsimp only
          refine ⟨?_, ?_, ?_⟩ <;> split_ifs <;>
            simp [add_warning_list_task_count, add_warning_list_success_count,
              add_warning_list_failed_count]
      simp only [report_balanced, beq_iff_eq]
      split_ifs <;>
        simp only [add_log_task_count, add_log_success_count, add_log_failed_count,
          add_warning_task_count, add_warning_success_count,
          add_warning_failed_count] <;> omega

/-! ## Claim C8: the dry run -/

/-- Effects a dry run may perform: anything except spawning the merge
process or writing an artifact. -/
def dry_effect (e : Effect) : Bool :=
  match e with
  | .spawnMerge _ => false
  | .writeFile _ => false
  | _ => true

/-- What a dry run records for a task: success, exit code 0, the synthetic
log line. -/
def dry_task (t : MergeTask) : Bool :=
  t.is_success && (t.ffmpeg_exit_code == 0) &&
    (t.ffmpeg_log == "FFmpeg process is disabled")

theorem probe_effects_dry (pe : ProbeEnv) (path : String) :
    ((get_video_stream pe path).2.all dry_effect) = true := by
  cases h1 : pe.pathExists <;> cases h2 : pe.pathIsFile <;>
    simp [get_video_stream, h1, h2, dry_effect]

theorem ingest_input_file_fx (env : MergeEnv) (ff : List String)
    (ctx : SrcKind) (path : String) (fi : Nat) (st : RunState)
    (h : st.fx.all dry_effect = true) :
    ((ingest_input_file env ff ctx path fi st).2.2.fx.all dry_effect) = true := by
  unfold ingest_input_file
  dsimp only
  rw [List.all_append, h, Bool.true_and]
  exact probe_effects_dry (env.probe path) path

theorem ingest_matching_fx (env : MergeEnv) (ff : List String)
    (ctx : SrcKind) (vf : String) (cands : List String) (fi : Nat)
    (st : RunState) (h : st.fx.all dry_effect = true) :
    ((ingest_matching env ff ctx vf cands fi st).2.2.2.2.fx.all dry_effect) = true := by
  induction cands generalizing fi st with
  | nil => exact h
  | cons cand rest ih =>
    rw [ingest_matching]
    split
    · exact ih (fi + 1) _ (ingest_input_file_fx env ff ctx cand fi st h)
    · exact ih fi st h

theorem assign_writes_dry (tid : Nat) (P : List (Nat × Nat)) :
    ((P.enum.map (fun e => Effect.assignWrite tid e.2.1 e.2.2 e.1)).all
      dry_effect) = true := by
  rw [List.all_eq_true]
  intro e he
  rw [List.mem_map] at he
  obtain ⟨p, _, rfl⟩ := he
  rfl

theorem build_task_fx (env : MergeEnv) (ofp : String) (es : Bool)
    (ff af sf : List String) (vf : String) (tid : Nat) (st1 : RunState)
    (out : List InputFile × List String × String × Nat × RunState)
    (h : build_task env ofp es ff af sf vf tid st1 = some out)
    (hdry : st1.fx.all dry_effect = true) :
    out.2.2.2.2.fx.all dry_effect = true := by
  have h1 := ingest_input_file_fx env ff .videoSrc vf 0 st1 hdry
  have h2 := ingest_matching_fx env ff .audioSrc vf af 1
    (ingest_input_file env ff .videoSrc vf 0 st1).2.2 h1
  have h3 := ingest_matching_fx env ff .subtitleSrc vf sf
    (ingest_matching env ff .audioSrc vf af 1
      (ingest_input_file env ff .videoSrc vf 0 st1).2.2).2.2.2.1
    (ingest_matching env ff .audioSrc vf af 1
      (ingest_input_file env ff .videoSrc vf 0 st1).2.2).2.2.2.2 h2
  unfold build_task at h
  dsimp only at h
  split at h
  · exact absurd h (by simp)
  · rename_i files1 heq
    rw [Option.some_inj] at h
    subst h
    dsimp only
    rw [List.all_append, h3, Bool.true_and]
    exact assign_writes_dry tid _

theorem process_task_dry (env : MergeEnv) (ofp : String)
    (es wfl : Bool) (ff af sf : List String) (total : Nat) (vf : String)
    (tid : Nat) (st0 st' : RunState)
    (h : process_task env ofp es true wfl ff af sf total vf tid st0 = .ok st')
    (hfx : st0.fx.all dry_effect = true)
    (htk : st0.report.task.all dry_task = true) :
    st'.fx.all dry_effect = true ∧ st'.report.task.all dry_task = true := by
  unfold process_task at h
  dsimp only at h
  split at h
  · exact absurd h (by simp)
  · rename_i built heq
    have hbf := build_task_fx env ofp es ff af sf vf tid _ built heq hfx
    have hbt := build_task_counts env ofp es ff af sf vf tid _ built heq
    dsimp only at hbt
    simp only [add_log_task] at hbt
    have hrm : remove_existing_output env true built.2.2.1 built.2.2.2.2 =
        .ok built.2.2.2.2 := by
      unfold remove_existing_output
      rw [if_neg]
      simp
    rw [hrm] at h
    dsimp only at h
    rw [if_pos rfl] at h
    rw [Except.ok.injEq] at h
    subst h
    dsimp only
    constructor
    · exact hbf
    · rw [List.all_append]
      simp only [add_log_task]
      rw [hbt.2, htk, Bool.true_and]
      rfl

theorem run_tasks_dry (env : MergeEnv) (ofp : String) (es wfl : Bool)
    (ff af sf : List String) (total : Nat) (vfs : List String) (tid : Nat)
    (st : RunState) (out : RunState × Nat)
    (h : run_tasks env ofp es true wfl ff af sf total vfs tid st = .ok out)
    (hfx : st.fx.all dry_effect = true)
    (htk : st.report.task.all dry_task = true) :
    out.1.fx.all dry_effect = true ∧ out.1.report.task.all dry_task = true := by
  induction vfs generalizing tid st with
  | nil =>
    rw [run_tasks, Except.ok.injEq] at h
    subst h
    exact ⟨hfx, htk⟩
  | cons vf rest ih =>
    rw [run_tasks] at h
    split at h
    · exact absurd h (by simp)
    · rename_i st1 hstep
      have h1 := process_task_dry env ofp es wfl ff af sf total vf (tid + 1)
        st st1 hstep hfx htk
      exact ih (tid + 1) st1 h h1.1 h1.2

/-- C8: with the dry-run flag set, no merge process is spawned, no log or
json artifact is written regardless of the persistence flags, and every
produced task is successful with exit code 0 and the synthetic log line. -/
theorem C8_dry_run_frame (env : MergeEnv) (vfp ofp : String)
    (es wfl slf sjf : Bool) :
    ((producedFx (merge_video_stream env vfp ofp es true wfl slf sjf)).all
      dry_effect = true) ∧
    ((producedTasks (merge_video_stream env vfp ofp es true wfl slf sjf)).all
      dry_task = true) := by
  have hvfx : (validate_folders env vfp ofp true
      ⟨0, 0, 0, 0, [], [], [], []⟩ []).2.1 = [] := by
    unfold validate_folders
    rw [if_neg (by simp)]
  have hvtk := (validate_folders_counts env vfp ofp true
    ⟨0, 0, 0, 0, [], [], [], []⟩ []).2
  unfold merge_video_stream
  dsimp only
  split
  · exact ⟨rfl, rfl⟩
  · rename_i loopOut hloop
    have hd := run_tasks_dry _ _ _ _ _ _ _ _ _ _ _ _ hloop
      (by dsimp only; rw [hvfx]; rfl)
      (by dsimp only; rw [hvtk]; rfl)
    split
    · exact ⟨rfl, rfl⟩
    · rename_i st4 hclr
      rw [if_neg (by simp), Except.ok.injEq] at hclr
      subst hclr
      dsimp only [producedFx, producedTasks]
      rw [if_neg (by simp), if_neg (by simp)]
      constructor
      · exact hd.1
      · simp only [add_log_task, apply_ite RunReport.task, add_warning_task,
          add_warning_list_task, ite_self]
        exact hd.2

/-! ## Claim C6: subtitle display titles -/

/-- The warning list a run's caller receives, when the engine did not
raise. -/
def producedWarnings (res : Except String (RunReport × List Effect)) :
    List String :=
  match res with
  | .ok p => p.1.warning_list
  | .error _ => []

/-- C6, the claim's side: the display title is the companion-match
differential with the subtitle's original extension re-appended and a
leading `.` separator stripped. -/
def subtitle_title_as_specified (video_file path : String) : String :=
  let diff := (is_prefix_matching (get_absolute_file_name (os_basename video_file))
    (get_absolute_file_name (os_basename path))).2.2
  let raw := diff ++ "." ++ (split_on_char '.' (os_basename path)).getLastD ""
  if raw.data.head? = some '.' then ⟨raw.data.drop 1⟩ else raw

/-- A probe world holding exactly one video stream. -/
def probe_one_video : ProbeEnv :=
  ⟨true, true, .ok ("", "", 1), fun _ => [⟨"0", 0, " (und)", "Video", "h264"⟩]⟩

/-- A probe world holding exactly one subtitle stream. -/
def probe_one_subtitle : ProbeEnv :=
  ⟨true, true, .ok ("", "", 1), fun _ => [⟨"0", 0, "", "Subtitle", "subrip"⟩]⟩

/-- A merge world over a folder holding `A.mkv` and `A.eng.srt`. -/
def merge_env_sub : MergeEnv :=
  { inputExists := true, inputIsDir := true, outputExists := true,
    makedirs := .ok (), outputIsDir := true, outputListing := [],
    folderListing := ["A.mkv", "A.eng.srt"], entryIsDir := fun _ => false,
    probe := fun p => if p = "in/A.mkv" then probe_one_video else probe_one_subtitle,
    fileExists := fun _ => false, remove := fun _ => .ok (),
    run := fun _ => .ok ("", "", 0),
    warnMatches := fun _ => [("out#0/matroska", "0123456789abcdef", "muxing overhead")],
    write := fun _ => .ok () }

/-- C6: the display title of a subtitle stream read from a standalone
subtitle file equals the specification's formula (whenever the subtitle
file has a non-empty last extension, as every discovered subtitle file
does); the title — empty or not — is always passed to the command
builder, and an empty title raises the "no valid title" warning; on the
folder `A.mkv` + `A.eng.srt` the produced task carries the title
`eng.srt` and no "no valid title" warning is recorded. -/
theorem C6_subtitle_title_from_differential :
    (∀ v p : String, (split_on_char '.' (os_basename p)).getLastD "" ≠ "" →
      subtitle_metadata_title v p = subtitle_title_as_specified v p) ∧
    (∀ (vf : String) (sfl : List String) (files : List InputFile)
      (i idx : Nat) (c : Nat × Nat),
      sfl.contains (path_of files c.1) = true →
      (subtitle_block_step vf sfl files i idx c).2.1 =
        [s!"-metadata:s:{idx}",
         "title=\"" ++ subtitle_metadata_title vf (path_of files c.1) ++ "\""] ∧
      (subtitle_metadata_title vf (path_of files c.1) = "" →
        (subtitle_block_step vf sfl files i idx c).1 ≠ [])) ∧
    ((producedTasks (merge_video_stream merge_env_sub "in" "out"
        true false false true false)).length = 1 ∧
      (producedTasks (merge_video_stream merge_env_sub "in" "out"
        true false false true false)).all
          (fun t => t.cmd_args.contains "title=\"eng.srt\"") = true ∧
      (producedWarnings (merge_video_stream merge_env_sub "in" "out"
        true false false true false)).contains
          "Subtitle file in/A.eng.srt has no valid title" = false) := by
  refine ⟨?_, ?_, by decide, by decide, by decide⟩
  · intro v p hext
    unfold subtitle_metadata_title subtitle_title_as_specified
    dsimp only
    set raw := (is_prefix_matching (get_absolute_file_name (os_basename v))
      (get_absolute_file_name (os_basename p))).2.2 ++ "." ++
      (split_on_char '.' (os_basename p)).getLastD "" with hraw
    have h1 : ∀ a b : String, (a ++ b).length = a.length + b.length := by
      intro a b
      show (a.data ++ b.data).length = a.data.length + b.data.length
      exact List.length_append a.data b.data
    have hlen : 1 < raw.length := by
      rw [hraw, h1, h1]
      have h2 : 0 < ((split_on_char '.' (os_basename p)).getLastD "").length := by
        rcases hq : (split_on_char '.' (os_basename p)).getLastD "" with ⟨l⟩
        cases l with
        | nil => exact absurd hq (by rw [hq] at hext ⊢; exact fun _ => hext rfl)
        | cons c cs => exact Nat.succ_pos _
      have h3 : ("." : String).length = 1 := rfl
      omega
    by_cases hh : raw.data.head? = some '.'
    · rw [if_pos ⟨hlen, hh⟩, if_pos hh]
    · rw [if_neg (fun hc => hh hc.2), if_neg hh]
  · intro vf sfl files i idx c hmem
    unfold subtitle_block_step
    dsimp only
    rw [if_pos hmem]
    refine ⟨rfl, fun ht => ?_⟩
    dsimp only
    rw [if_pos (Or.inl (by rw [ht]; rfl))]
    simp

/-! ## The mapping phase, characterized

Shared infrastructure for claims C1 and C5: what the gather phase puts in
the four buckets, and what the write pass does to the gathered files. -/

/-- The four-way stream classification of the mapping phase (the
`if/elif/elif/else` chain on the stream's type string). -/
inductive BK where
  | video
  | audio
  | subtitle
  | other
deriving DecidableEq

def bucketKind (t : String) : BK :=
  if t = "Video" then .video
  else if t = "Audio" then .audio
  else if t = "Subtitle" then .subtitle
  else .other

def Buckets.get (b : Buckets) : BK → List (Nat × Nat)
  | .video => b.v
  | .audio => b.a
  | .subtitle => b.s
  | .other => b.o

@[simp] theorem Buckets.get_append (x y : Buckets) (K : BK) :
    (x.append y).get K = x.get K ++ y.get K := by
  cases K <;> rfl

@[simp] theorem Buckets.get_empty (K : BK) : emptyBuckets.get K = [] := by
  cases K <;> rfl

/-- The bucket entries one file's streams contribute, when the file sits at
`input_file_index` `fi`. -/
def cells_of_file (K : BK) (fi : Nat) (fl : InputFile) : List (Nat × Nat) :=
  (fl.stream_info.filter (fun r => bucketKind r.stype = K)).map
    (fun r => (fi, r.index))

/-- The bucket entries of a run of consecutively numbered files. -/
def cells_from (K : BK) : Nat → List InputFile → List (Nat × Nat)
  | _, [] => []
  | fi, fl :: rest => cells_of_file K fi fl ++ cells_from K (fi + 1) rest

theorem cells_from_append (K : BK) (fi : Nat) (xs ys : List InputFile) :
    cells_from K fi (xs ++ ys) =
      cells_from K fi xs ++ cells_from K (fi + xs.length) ys := by
  induction xs generalizing fi with
  | nil => simp [cells_from]
  | cons x rest ih =>
    show cells_of_file K fi x ++ cells_from K (fi + 1) (rest ++ ys) =
      cells_of_file K fi x ++ cells_from K (fi + 1) rest ++
        cells_from K (fi + (x :: rest).length) ys
    rw [ih, List.append_assoc, List.length_cons,
      show fi + (rest.length + 1) = fi + 1 + rest.length from by omega]

theorem ingest_stream_bucket (ctx : SrcKind) (path : String) (fi : Nat)
    (info : StreamInfo) (K : BK) :
    (ingest_stream ctx path fi info).1.get K =
      if bucketKind info.stype = K then [(fi, info.index)] else [] := by
  unfold ingest_stream bucketKind
  by_cases h1 : info.stype = "Video"
  · rw [if_pos h1, if_pos h1]
    dsimp only
    split <;> rename_i hK <;> cases K <;> simp_all <;> rfl
  · rw [if_neg h1, if_neg h1]
    by_cases h2 : info.stype = "Audio"
    · rw [if_pos h2, if_pos h2]
      dsimp only
      split <;> rename_i hK <;> cases K <;> simp_all <;> rfl
    · rw [if_neg h2, if_neg h2]
      by_cases h3 : info.stype = "Subtitle"
      · rw [if_pos h3, if_pos h3]
        dsimp only
        split <;> rename_i hK <;> cases K <;> simp_all <;> rfl
      · rw [if_neg h3, if_neg h3]
        dsimp only
        split <;> rename_i hK <;> cases K <;> simp_all <;> rfl

theorem ingest_streams_recs (ctx : SrcKind) (path : String) (fi : Nat)
    (infos : List StreamInfo) :
    (ingest_streams ctx path fi infos).recs = infos.map toTaskStream := by
  induction infos with
  | nil => rfl
  | cons info rest ih =>
    rw [ingest_streams]
    dsimp only
    rw [ih, List.map_cons]

theorem ingest_streams_bucket (ctx : SrcKind) (path : String) (fi : Nat)
    (infos : List StreamInfo) (K : BK) :
    (ingest_streams ctx path fi infos).bks.get K =
      (infos.filter (fun i => bucketKind i.stype = K)).map
        (fun i => (fi, i.index)) := by
  induction infos with
  | nil => cases K <;> rfl
  | cons info rest ih =>
    rw [ingest_streams]
    dsimp only
    rw [Buckets.get_append, ih, ingest_stream_bucket, List.filter_cons]
    split
    · rename_i hK
      rw [if_pos (by simpa using hK)]
      rfl
    · rename_i hK
      rw [if_neg (by simpa using hK)]
      rfl

/-- The task entry one probed input file becomes. -/
def file_entry (env : MergeEnv) (fi : Nat) (path : String) : InputFile :=
  let pr := (get_video_stream (env.probe path) path).1
  ⟨fi, path, pr.ffmpeg_log, pr.ffmpeg_exit_code, pr.is_success, pr.cmd_args,
    pr.stream_info.map toTaskStream⟩

theorem ingest_input_file_file (env : MergeEnv) (ff : List String)
    (ctx : SrcKind) (path : String) (fi : Nat) (st : RunState) :
    (ingest_input_file env ff ctx path fi st).1 = file_entry env fi path := by
  unfold ingest_input_file file_entry
  dsimp only
  rw [ingest_streams_recs]

theorem ingest_input_file_bucket (env : MergeEnv) (ff : List String)
    (ctx : SrcKind) (path : String) (fi : Nat) (st : RunState) (K : BK) :
    (ingest_input_file env ff ctx path fi st).2.1.get K =
      cells_of_file K fi (file_entry env fi path) := by
  unfold ingest_input_file
  dsimp only
  rw [ingest_streams_bucket]
  unfold cells_of_file file_entry
  dsimp only
  rw [List.filter_map, List.map_map]
  rfl

/-- The candidate files the companion matcher keeps, in order. -/
def matched_files (vf : String) (cands : List String) : List String :=
  cands.filter (fun c => (is_prefix_matching (get_absolute_file_name (os_basename vf))
    (get_absolute_file_name (os_basename c))).1)

/-- The task entries of a run of consecutively numbered input files. -/
def files_spec (env : MergeEnv) : Nat → List String → List InputFile
  | _, [] => []
  | fi, p :: rest => file_entry env fi p :: files_spec env (fi + 1) rest

@[simp] theorem files_spec_length (env : MergeEnv) (fi : Nat)
    (ps : List String) : (files_spec env fi ps).length = ps.length := by
  induction ps generalizing fi with
  | nil => rfl
  | cons p rest ih => simp [files_spec, ih]

theorem ingest_matching_char (env : MergeEnv) (ff : List String)
    (ctx : SrcKind) (vf : String) (cands : List String) (fi : Nat)
    (st : RunState) :
    (ingest_matching env ff ctx vf cands fi st).1 =
      files_spec env fi (matched_files vf cands) ∧
    (ingest_matching env ff ctx vf cands fi st).2.2.2.1 =
      fi + (matched_files vf cands).length ∧
    ∀ K, (ingest_matching env ff ctx vf cands fi st).2.1.get K =
      cells_from K fi (files_spec env fi (matched_files vf cands)) := by
  induction cands generalizing fi st with
  | nil =>
    refine ⟨rfl, rfl, fun K => ?_⟩
    cases K <;> rfl
  | cons cand rest ih =>
    rw [ingest_matching]
    split
    · rename_i hm
      have hmf : matched_files vf (cand :: rest) =
          cand :: matched_files vf rest := by
        unfold matched_files
        rw [List.filter_cons, if_pos (by simpa using hm)]
      dsimp only
      obtain ⟨ih1, ih2, ih3⟩ := ih (fi + 1) (ingest_input_file env ff ctx cand fi st).2.2
      refine ⟨?_, ?_, fun K => ?_⟩
      · rw [hmf, files_spec, ingest_input_file_file, ih1]
      · rw [hmf, ih2, List.length_cons]
        omega
      · rw [hmf, files_spec, Buckets.get_append, ingest_input_file_bucket,
          ih3 K, cells_from]
    · rename_i hm
      have hmf : matched_files vf (cand :: rest) = matched_files vf rest := by
        unfold matched_files
        rw [List.filter_cons, if_neg (by simpa using hm)]
      rw [hmf]
      exact ih fi st

/-- Both list indices of a write are in range (this is what Python's
`task['input_files'][f]['stream_info'][s]` requires not to raise). -/
def cell_ok (files : List InputFile) (c : Nat × Nat) : Prop :=
  c.1 < files.length ∧ c.2 < ((files.getD c.1 default).stream_info).length

theorem set_output_cell_some (files : List InputFile) (f s idx : Nat)
    (hok : cell_ok files (f, s)) :
    ∃ files', set_output_cell files f s idx = some files' ∧
      files'.length = files.length ∧
      (∀ j, ((files'.getD j default).stream_info).length =
        ((files.getD j default).stream_info).length) := by
  obtain ⟨hf, hs⟩ := hok
  have hgf : files[f]? = some (files.getD f default) := by
    rw [List.getElem?_eq_getElem hf, List.getD_eq_getElem files default hf]
  have hgs : (files.getD f default).stream_info[s]? =
      some ((files.getD f default).stream_info.getD s default) := by
    rw [List.getElem?_eq_getElem hs, List.getD_eq_getElem _ default hs]
  refine ⟨files.set f { files.getD f default with
      stream_info := (files.getD f default).stream_info.set s
        { (files.getD f default).stream_info.getD s default with
          output_index := Int.ofNat idx } }, ?_, ?_, ?_⟩
  · unfold set_output_cell
    rw [hgf]
    dsimp only
    rw [hgs]
  · exact List.length_set files f _
  · intro j
    by_cases hj : f = j
    · subst hj
      rw [List.getD_eq_getElem?_getD, List.getElem?_set_self (by omega),
        Option.getD_some]
      dsimp only
      rw [List.length_set]
    · rw [List.getD_eq_getElem?_getD, List.getElem?_set_ne hj,
        ← List.getD_eq_getElem?_getD]

theorem assign_cells_isSome (pairs : List (Nat × Nat)) (files : List InputFile)
    (start : Nat) (hv : ∀ c ∈ pairs, cell_ok files c) :
    ∃ files', assign_cells files pairs start = some files' := by
  induction pairs generalizing files start with
  | nil => exact ⟨files, rfl⟩
  | cons c rest ih =>
    obtain ⟨files1, hset, hlen, hslen⟩ :=
      set_output_cell_some files c.1 c.2 start (hv c (List.mem_cons_self c rest))
    have hv1 : ∀ d ∈ rest, cell_ok files1 d := by
      intro d hd
      obtain ⟨h1, h2⟩ := hv d (List.mem_cons_of_mem c hd)
      exact ⟨hlen ▸ h1, (hslen d.1) ▸ h2⟩
    obtain ⟨files', hrest⟩ := ih files1 (start + 1) hv1
    refine ⟨files', ?_⟩
    rw [assign_cells, hset]
    exact hrest

theorem cells_from_mem (K : BK) (j : Nat) (files : List InputFile)
    (c : Nat × Nat) :
    c ∈ cells_from K j files ↔
      ∃ t, t < files.length ∧ c.1 = j + t ∧
        ∃ r ∈ (files.getD t default).stream_info,
          bucketKind r.stype = K ∧ r.index = c.2 := by
  induction files generalizing j with
  | nil => simp [cells_from]
  | cons fl rest ih =>
    rw [cells_from, List.mem_append, ih]
    constructor
    · rintro (hc | ⟨t, ht, hc1, r, hr, hK, hidx⟩)
      · unfold cells_of_file at hc
        rw [List.mem_map] at hc
        obtain ⟨r, hr, rfl⟩ := hc
        rw [List.mem_filter] at hr
        exact ⟨0, by simp, by simp, r, by simpa using hr.1, by simpa using hr.2, rfl⟩
      · exact ⟨t + 1, by simpa using ht, by omega, r, by simpa using hr, hK, hidx⟩
    · rintro ⟨t, ht, hc1, r, hr, hK, hidx⟩
      cases t with
      | zero =>
        left
        unfold cells_of_file
        rw [List.mem_map]
        refine ⟨r, ?_, ?_⟩
        · rw [List.mem_filter]
          exact ⟨by simpa using hr, by simpa using hK⟩
        · rcases c with ⟨c1, c2⟩
          simp only at hc1 hidx
          simp [hc1, hidx]
      | succ t' =>
        right
        exact ⟨t', by simpa using ht, by omega, r, by simpa using hr, hK, hidx⟩

/-- All input paths of one task, in encounter order: the video file, then
the matched audio files, then the matched subtitle files. -/
def task_inputs (vf : String) (af sf : List String) : List String :=
  vf :: (matched_files vf af ++ matched_files vf sf)

/-- The whole write sequence of one task's mapping phase, in output-index
order: the video bucket, then audio, subtitle and the rest. -/
def task_cells (env : MergeEnv) (vf : String) (af sf : List String) :
    List (Nat × Nat) :=
  let files0 := files_spec env 0 (task_inputs vf af sf)
  cells_from .video 0 files0 ++ cells_from .audio 0 files0 ++
    cells_from .subtitle 0 files0 ++ cells_from .other 0 files0

theorem files_spec_append (env : MergeEnv) (fi : Nat) (xs ys : List String) :
    files_spec env fi (xs ++ ys) =
      files_spec env fi xs ++ files_spec env (fi + xs.length) ys := by
  induction xs generalizing fi with
  | nil => simp [files_spec]
  | cons x rest ih =>
    show file_entry env fi x :: files_spec env (fi + 1) (rest ++ ys) = _
    rw [ih, files_spec, List.cons_append, List.length_cons,
      show fi + (rest.length + 1) = fi + 1 + rest.length from by omega]

/-- The write cells the trace holds for one task id, in order. -/
def assign_trace_cells (tid : Nat) (fx : List Effect) : List (Nat × Nat) :=
  fx.filterMap (fun e => match e with
    | .assignWrite t f s _ => if t = tid then some (f, s) else none
    | _ => none)

@[simp] theorem assign_trace_cells_append (tid : Nat) (a b : List Effect) :
    assign_trace_cells tid (a ++ b) =
      assign_trace_cells tid a ++ assign_trace_cells tid b :=
  List.filterMap_append a b _

theorem assign_trace_cells_probe (tid : Nat) (pe : ProbeEnv) (p : String) :
    assign_trace_cells tid (get_video_stream pe p).2 = [] := by
  cases h1 : pe.pathExists <;> cases h2 : pe.pathIsFile <;>
    simp [get_video_stream, h1, h2, assign_trace_cells]

theorem assign_trace_cells_writes (t tid : Nat) (P : List (Nat × Nat)) :
    assign_trace_cells t (P.enum.map
      (fun e => Effect.assignWrite tid e.2.1 e.2.2 e.1)) =
      if t = tid then P else [] := by
  have key : ∀ l : List (Nat × Nat × Nat),
      assign_trace_cells t (l.map (fun e => Effect.assignWrite tid e.2.1 e.2.2 e.1)) =
        if t = tid then l.map (fun e => e.2) else [] := by
    intro l
    induction l with
    | nil => split <;> rfl
    | cons x rest ih =>
      rw [List.map_cons]
      unfold assign_trace_cells at ih ⊢
      rw [List.filterMap_cons]
      by_cases h : tid = t
      · subst h
        simp [ih]
      · have h2 : ¬ t = tid := fun hh => h hh.symm
        simp [h, h2, ih]
  rw [key]
  have henum : (P.enum.map (fun e : Nat × Nat × Nat => e.2)) = P := by
    rw [show (fun e : Nat × Nat × Nat => e.2) = Prod.snd from rfl]
    exact List.enum_map_snd P
  split <;> simp [henum]

theorem ingest_input_file_trace (env : MergeEnv) (ff : List String)
    (ctx : SrcKind) (path : String) (fi : Nat) (st : RunState) (t : Nat) :
    assign_trace_cells t (ingest_input_file env ff ctx path fi st).2.2.fx =
      assign_trace_cells t st.fx := by
  unfold ingest_input_file
  dsimp only
  rw [assign_trace_cells_append, assign_trace_cells_probe, List.append_nil]

theorem ingest_matching_trace (env : MergeEnv) (ff : List String)
    (ctx : SrcKind) (vf : String) (cands : List String) (fi : Nat)
    (st : RunState) (t : Nat) :
    assign_trace_cells t (ingest_matching env ff ctx vf cands fi st).2.2.2.2.fx =
      assign_trace_cells t st.fx := by
  induction cands generalizing fi st with
  | nil => rfl
  | cons cand rest ih =>
    rw [ingest_matching]
    split
    · rw [ih (fi + 1) _, ingest_input_file_trace]
    · exact ih fi st

theorem files_join (env : MergeEnv) (vf : String) (af sf : List String) :
    file_entry env 0 vf :: (files_spec env 1 (matched_files vf af) ++
      files_spec env (1 + (matched_files vf af).length) (matched_files vf sf)) =
    files_spec env 0 (task_inputs vf af sf) := by
  rw [task_inputs,
    show files_spec env 0 (vf :: (matched_files vf af ++ matched_files vf sf)) =
      file_entry env 0 vf ::
        files_spec env 1 (matched_files vf af ++ matched_files vf sf) from rfl,
    files_spec_append]

theorem cells_join (env : MergeEnv) (K : BK) (vf : String) (af sf : List String) :
    cells_of_file K 0 (file_entry env 0 vf) ++
      (cells_from K 1 (files_spec env 1 (matched_files vf af)) ++
       cells_from K (1 + (matched_files vf af).length)
         (files_spec env (1 + (matched_files vf af).length) (matched_files vf sf))) =
    cells_from K 0 (files_spec env 0 (task_inputs vf af sf)) := by
  rw [← files_join,
    show cells_from K 0 (file_entry env 0 vf ::
        (files_spec env 1 (matched_files vf af) ++
         files_spec env (1 + (matched_files vf af).length) (matched_files vf sf))) =
      cells_of_file K 0 (file_entry env 0 vf) ++
        cells_from K 1 (files_spec env 1 (matched_files vf af) ++
          files_spec env (1 + (matched_files vf af).length) (matched_files vf sf))
      from rfl,
    cells_from_append, files_spec_length]

theorem Buckets.v_get (b : Buckets) : b.v = b.get .video := rfl
theorem Buckets.a_get (b : Buckets) : b.a = b.get .audio := rfl
theorem Buckets.s_get (b : Buckets) : b.s = b.get .subtitle := rfl
theorem Buckets.o_get (b : Buckets) : b.o = b.get .other := rfl

/-- `build_task` succeeds or fails exactly as the write pass over the
specified files and cells does; on success the assigned files are the
task's `input_files` and the trace gains exactly this task's cells. -/
theorem build_task_shape (env : MergeEnv) (ofp : String) (es : Bool)
    (ff af sf : List String) (vf : String) (tid : Nat) (st1 : RunState) :
    (build_task env ofp es ff af sf vf tid st1 = none ∧
      assign_cells (files_spec env 0 (task_inputs vf af sf))
        (task_cells env vf af sf) 0 = none) ∨
    (∃ out, build_task env ofp es ff af sf vf tid st1 = some out ∧
      assign_cells (files_spec env 0 (task_inputs vf af sf))
        (task_cells env vf af sf) 0 = some out.1 ∧
      (∀ t, assign_trace_cells t out.2.2.2.2.fx =
        assign_trace_cells t st1.fx ++
          (if t = tid then task_cells env vf af sf else []))) := by
  have hbv := ingest_input_file_bucket env ff .videoSrc vf 0 st1
  obtain ⟨ha1, ha2, ha3⟩ := ingest_matching_char env ff .audioSrc vf af 1
    (ingest_input_file env ff .videoSrc vf 0 st1).2.2
  obtain ⟨hs1, hs2, hs3⟩ := ingest_matching_char env ff .subtitleSrc vf sf
    (ingest_matching env ff .audioSrc vf af 1
      (ingest_input_file env ff .videoSrc vf 0 st1).2.2).2.2.2.1
    (ingest_matching env ff .audioSrc vf af 1
      (ingest_input_file env ff .videoSrc vf 0 st1).2.2).2.2.2.2
  rw [ha2] at hs1 hs3
  unfold build_task task_cells
  dsimp only
  rw [ha2, ingest_input_file_file, ha1, hs1,
    Buckets.v_get, Buckets.a_get, Buckets.s_get, Buckets.o_get]
  simp only [Buckets.get_append, hbv, ha3, hs3]
  rw [cells_join env .video, cells_join env .audio, cells_join env .subtitle,
    cells_join env .other, files_join]
  cases hA : assign_cells (files_spec env 0 (task_inputs vf af sf))
      (cells_from .video 0 (files_spec env 0 (task_inputs vf af sf)) ++
       cells_from .audio 0 (files_spec env 0 (task_inputs vf af sf)) ++
       cells_from .subtitle 0 (files_spec env 0 (task_inputs vf af sf)) ++
       cells_from .other 0 (files_spec env 0 (task_inputs vf af sf))) 0 with
  | none => exact .inl ⟨rfl, rfl⟩
  | some files1 =>
    refine .inr ⟨_, rfl, rfl, fun t => ?_⟩
    show assign_trace_cells t ((ingest_matching env ff .subtitleSrc vf sf _ _).2.2.2.2.fx ++ _) = _
    rw [assign_trace_cells_append, assign_trace_cells_writes,
      ingest_matching_trace, ingest_matching_trace, ingest_input_file_trace]

/-! ### When the run completes

The source can raise past `merge_video_stream`'s boundary in exactly two
ways: an `os.remove` outside any `try` (lines 657-664, 767-782) and the
mapping phase's nested list write (an `IndexError` when a probed stream
index is not a valid position). The next lemmas show these are the only
ways: when every removal succeeds and every probed stream index is in
range, every phase returns `.ok`. -/

theorem remove_existing_output_isOk (env : MergeEnv) (dis : Bool)
    (f : String) (st : RunState) (hrem : env.remove f = Except.ok ()) :
    ∃ st3, remove_existing_output env dis f st = .ok st3 := by
  unfold remove_existing_output
  split
  · rw [hrem]
    exact ⟨_, rfl⟩
  · exact ⟨_, rfl⟩

theorem clear_artifact_isOk (env : MergeEnv) (enabled : Bool)
    (kindName path : String) (st : RunState)
    (hrem : env.remove path = Except.ok ()) :
    ∃ st', clear_artifact env enabled kindName path st = .ok st' := by
  unfold clear_artifact
  split
  · rw [hrem]
    exact ⟨_, rfl⟩
  · exact ⟨_, rfl⟩

theorem build_task_isSome (env : MergeEnv) (ofp : String) (es : Bool)
    (ff af sf : List String) (vf : String) (tid : Nat) (st1 : RunState)
    (hvalid : ∀ c ∈ task_cells env vf af sf,
      cell_ok (files_spec env 0 (task_inputs vf af sf)) c) :
    build_task env ofp es ff af sf vf tid st1 ≠ none := by
  intro hnone
  rcases build_task_shape env ofp es ff af sf vf tid st1 with
    ⟨hb, hA⟩ | ⟨out, hb, hA, htr⟩
  · obtain ⟨files', h⟩ := assign_cells_isSome _ _ 0 hvalid
    rw [h] at hA
    cases hA
  · rw [hb] at hnone
    cases hnone

theorem process_task_isOk (env : MergeEnv) (ofp : String)
    (es dis wfl : Bool) (ff af sf : List String) (total : Nat) (vf : String)
    (tid : Nat) (st0 : RunState)
    (hrem : ∀ p, env.remove p = Except.ok ())
    (hvalid : ∀ c ∈ task_cells env vf af sf,
      cell_ok (files_spec env 0 (task_inputs vf af sf)) c) :
    ∃ st', process_task env ofp es dis wfl ff af sf total vf tid st0 = .ok st' := by
  unfold process_task
  dsimp only
  split
  · rename_i hb
    exact absurd hb (build_task_isSome env ofp es ff af sf vf tid _ hvalid)
  · rename_i built hb
    obtain ⟨st3, hro⟩ := remove_existing_output_isOk env dis built.2.2.1
      built.2.2.2.2 (hrem built.2.2.1)
    rw [hro]
    dsimp only
    split
    · exact ⟨_, rfl⟩
    · cases hr2 : env.run built.2.1 with
      | error e => exact ⟨_, rfl⟩
      | ok runOut =>
        dsimp only
        split
        · exact ⟨_, rfl⟩
        · exact ⟨_, rfl⟩

theorem run_tasks_isOk (env : MergeEnv) (ofp : String)
    (es dis wfl : Bool) (ff af sf : List String) (total : Nat)
    (vfs : List String) (tid : Nat) (st : RunState)
    (hrem : ∀ p, env.remove p = Except.ok ())
    (hvalid : ∀ vf ∈ vfs, ∀ c ∈ task_cells env vf af sf,
      cell_ok (files_spec env 0 (task_inputs vf af sf)) c) :
    ∃ out, run_tasks env ofp es dis wfl ff af sf total vfs tid st = .ok out := by
  induction vfs generalizing tid st with
  | nil => exact ⟨_, rfl⟩
  | cons vf rest ih =>
    obtain ⟨st1, h1⟩ := process_task_isOk env ofp es dis wfl ff af sf total vf
      (tid + 1) st hrem (hvalid vf (List.mem_cons_self vf rest))
    rw [run_tasks, h1]
    exact ih (tid + 1) st1 (fun v hv => hvalid v (List.mem_cons_of_mem vf hv))

theorem files_spec_getD (env : MergeEnv) (fi : Nat) (ps : List String)
    (t : Nat) (ht : t < ps.length) :
    (files_spec env fi ps).getD t default =
      file_entry env (fi + t) (ps.getD t "") := by
  induction ps generalizing fi t with
  | nil => simp at ht
  | cons p rest ih =>
    cases t with
    | zero =>
      show file_entry env fi p = file_entry env (fi + 0) (p :: rest).head!
      rw [Nat.add_zero]
      rfl
    | succ u =>
      show (files_spec env (fi + 1) rest).getD u default = _
      rw [ih (fi + 1) u (by simpa using ht),
        show fi + 1 + u = fi + (u + 1) from by omega]
      rfl

/-- When every probed stream index is a valid position of the probed stream
list, every write cell of a task is in range. -/
theorem task_cells_ok (env : MergeEnv) (vf : String) (af sf : List String)
    (hidx : ∀ p, ∀ r ∈ (get_video_stream (env.probe p) p).1.stream_info,
      r.index < ((get_video_stream (env.probe p) p).1.stream_info).length) :
    ∀ c ∈ task_cells env vf af sf,
      cell_ok (files_spec env 0 (task_inputs vf af sf)) c := by
  intro c hc
  unfold task_cells at hc
  dsimp only at hc
  have hKc : ∃ K, c ∈ cells_from K 0 (files_spec env 0 (task_inputs vf af sf)) := by
    rcases List.mem_append.1 hc with h1 | h1
    · rcases List.mem_append.1 h1 with h2 | h2
      · rcases List.mem_append.1 h2 with h3 | h3
        · exact ⟨.video, h3⟩
        · exact ⟨.audio, h3⟩
      · exact ⟨.subtitle, h2⟩
    · exact ⟨.other, h1⟩
  obtain ⟨K, hK⟩ := hKc
  rw [cells_from_mem] at hK
  obtain ⟨t, ht, hc1, r, hr, hKk, hidx2⟩ := hK
  have ht' : t < (task_inputs vf af sf).length := by simpa using ht
  constructor
  · rw [hc1]
    simpa using ht
  · rw [hc1, show (0:Nat) + t = t from by omega]
    rw [files_spec_getD env 0 (task_inputs vf af sf) t ht'] at hr ⊢
    unfold file_entry at hr ⊢
    dsimp only at hr ⊢
    rw [List.mem_map] at hr
    obtain ⟨r0, hr0, rfl⟩ := hr
    rw [List.length_map, ← hidx2]
    exact hidx ((task_inputs vf af sf).getD t "") r0 hr0

theorem run_tasks_neverError (env : MergeEnv) (ofp : String)
    (es dis wfl : Bool) (ff af sf : List String) (total : Nat)
    (vfs : List String) (tid : Nat) (st : RunState)
    (hrem : ∀ p, env.remove p = Except.ok ())
    (hvalid : ∀ vf ∈ vfs, ∀ c ∈ task_cells env vf af sf,
      cell_ok (files_spec env 0 (task_inputs vf af sf)) c) (e : String) :
    run_tasks env ofp es dis wfl ff af sf total vfs tid st ≠ .error e := by
  intro hc
  obtain ⟨out, h⟩ := run_tasks_isOk env ofp es dis wfl ff af sf total vfs tid st
    hrem hvalid
  rw [h] at hc
  cases hc

theorem clear_artifact_neverError (env : MergeEnv) (enabled : Bool)
    (kindName path : String) (st : RunState)
    (hrem : env.remove path = Except.ok ()) (e : String) :
    clear_artifact env enabled kindName path st ≠ .error e := by
  intro hc
  obtain ⟨st', h⟩ := clear_artifact_isOk env enabled kindName path st hrem
  rw [h] at hc
  cases hc

/-- C5, amended: the engine can raise past its boundary — through the
`os.remove` calls outside any `try` and through the mapping phase's nested
list write — but when every `os.remove` succeeds and every probed stream
index is a valid position of its probed stream list, the caller always
receives a completed report. -/
theorem C5_completes_amended (env : MergeEnv) (vfp ofp : String)
    (es dis wfl slf sjf : Bool)
    (hrem : ∀ p, env.remove p = Except.ok ())
    (hidx : ∀ p, ∀ r ∈ (get_video_stream (env.probe p) p).1.stream_info,
      r.index < ((get_video_stream (env.probe p) p).1.stream_info).length) :
    ∃ out, merge_video_stream env vfp ofp es dis wfl slf sjf = .ok out := by
  unfold merge_video_stream
  dsimp only
  split
  · rename_i e hrt
    exact absurd hrt (run_tasks_neverError _ _ _ _ _ _ _ _ _ _ _ _ hrem
      (fun v _ => task_cells_ok env v _ _ hidx) e)
  · rename_i loopOut hrt
    split
    · rename_i e hcl
      split at hcl
      · split at hcl
        all_goals
          rename_i a h1
        all_goals
          first
            | exact absurd h1 (clear_artifact_neverError _ _ _ _ _ (hrem _) a)
            | exact absurd hcl (clear_artifact_neverError _ _ _ _ _ (hrem _) e)
      · cases hcl
    · exact ⟨_, rfl⟩

/-- A merge world with one video file, a pre-existing output file and an
`os.remove` that raises `PermissionError`. -/
def merge_env_rmfail : MergeEnv :=
  { inputExists := true, inputIsDir := true, outputExists := true,
    makedirs := .ok (), outputIsDir := true, outputListing := [],
    folderListing := ["A.mkv"], entryIsDir := fun _ => false,
    probe := fun _ => probe_exit2,
    fileExists := fun _ => true, remove := fun _ => .error "Permission denied",
    run := fun _ => .ok ("", "", 0),
    warnMatches := fun _ => [],
    write := fun _ => .ok () }

/-- C5, counterexample: a pre-existing output file whose removal raises
(line 664) propagates the exception out of `merge_video_stream`; the
caller gets no report. -/
theorem C5_counterexample_remove_raises :
    merge_video_stream merge_env_rmfail "in" "out" false false false false
      false = .error "Permission denied" := by
  rfl

/-- The amended claim instantiated at a concrete world in which every
removal succeeds and every probe yields no stream. -/
theorem C5_completes_amended_witness :
    ∃ out, merge_video_stream merge_env_exit2 "in" "" false false false false
      false = .ok out :=
  C5_completes_amended merge_env_exit2 "in" "" false false false false false
    (fun _ => rfl)
    (fun p r hr => by
      rw [show (get_video_stream (merge_env_exit2.probe p) p).1.stream_info = []
        from rfl] at hr
      cases hr)

/-! ### The output-index blocks (claim C1)

What one kind's write pass does to the gathered files: each stream of that
kind, in file-then-stream order, receives the next output index. The next
definitions describe that result directly; the lemmas show the write pass
(`assign_cells` over the bucket cells) computes it whenever each probed
file's stream indices are exactly its stream positions. -/

/-- One file's stream list after one kind's pass, counting from `n`. -/
def stream_write_ranks (K : BK) : List TaskStream → Nat → List TaskStream
  | [], _ => []
  | r :: rest, n =>
    if bucketKind r.stype = K then
      { r with output_index := Int.ofNat n } :: stream_write_ranks K rest (n + 1)
    else r :: stream_write_ranks K rest n

/-- The whole file list after one kind's pass, counting from `n`. -/
def file_write_ranks (K : BK) : List InputFile → Nat → List InputFile
  | [], _ => []
  | fl :: rest, n =>
    { fl with stream_info := stream_write_ranks K fl.stream_info n } ::
      file_write_ranks K rest
        (n + (fl.stream_info.filter (fun r => bucketKind r.stype = K)).length)

/-- The positions (not probe indices) of one kind's streams in a list. -/
def pos_of (K : BK) : List TaskStream → List Nat
  | [] => []
  | r :: rest =>
    if bucketKind r.stype = K then 0 :: (pos_of K rest).map (· + 1)
    else (pos_of K rest).map (· + 1)

/-- The write pass of one file, on stream positions. -/
def set_stream_cells (S : List TaskStream) :
    List Nat → Nat → Option (List TaskStream)
  | [], _ => some S
  | s :: rest, idx =>
    match S[s]? with
    | none => none
    | some old =>
      set_stream_cells (S.set s { old with output_index := Int.ofNat idx })
        rest (idx + 1)

theorem pos_of_cons (K : BK) (r : TaskStream) (rest : List TaskStream) :
    pos_of K (r :: rest) =
      if bucketKind r.stype = K then 0 :: (pos_of K rest).map (· + 1)
      else (pos_of K rest).map (· + 1) := rfl

theorem stream_write_ranks_cons (K : BK) (r : TaskStream)
    (rest : List TaskStream) (n : Nat) :
    stream_write_ranks K (r :: rest) n =
      if bucketKind r.stype = K then
        { r with output_index := Int.ofNat n } :: stream_write_ranks K rest (n + 1)
      else r :: stream_write_ranks K rest n := rfl

theorem set_stream_cells_cons (S : List TaskStream) (s : Nat)
    (rest : List Nat) (idx : Nat) :
    set_stream_cells S (s :: rest) idx =
      match S[s]? with
      | none => none
      | some old =>
        set_stream_cells (S.set s { old with output_index := Int.ofNat idx })
          rest (idx + 1) := rfl

theorem set_stream_cells_shift (y : TaskStream) (ys : List TaskStream)
    (ps : List Nat) (idx : Nat) :
    set_stream_cells (y :: ys) (ps.map (· + 1)) idx =
      (set_stream_cells ys ps idx).map (fun S => y :: S) := by
  induction ps generalizing ys idx with
  | nil => rfl
  | cons s rest ih =>
    rw [List.map_cons, set_stream_cells_cons, set_stream_cells_cons,
      List.getElem?_cons_succ]
    cases hs : ys[s]? with
    | none => rfl
    | some old =>
      dsimp only
      rw [show (y :: ys).set (s + 1) { old with output_index := Int.ofNat idx } =
        y :: ys.set s { old with output_index := Int.ofNat idx } from rfl, ih]

theorem set_stream_cells_pos (K : BK) (S : List TaskStream) (idx : Nat) :
    set_stream_cells S (pos_of K S) idx = some (stream_write_ranks K S idx) := by
  induction S generalizing idx with
  | nil => rfl
  | cons x xs ih =>
    rw [pos_of_cons, stream_write_ranks_cons]
    by_cases h : bucketKind x.stype = K
    · rw [if_pos h, if_pos h, set_stream_cells_cons, List.getElem?_cons_zero]
      dsimp only
      rw [List.set_cons_zero, set_stream_cells_shift, ih (idx + 1)]
      rfl
    · rw [if_neg h, if_neg h, set_stream_cells_shift, ih idx]
      rfl

theorem filter_index_pos (K : BK) (S : List TaskStream) (a : Nat)
    (hf : S.map (fun r => r.index) = List.range' a S.length) :
    (S.filter (fun r => bucketKind r.stype = K)).map (fun r => r.index) =
      (pos_of K S).map (· + a) := by
  induction S generalizing a with
  | nil => rfl
  | cons x xs ih =>
    rw [List.map_cons, List.length_cons, List.range'_succ, List.cons.injEq] at hf
    obtain ⟨hx, hxs⟩ := hf
    rw [List.filter_cons, pos_of_cons]
    by_cases h : bucketKind x.stype = K
    · rw [if_pos (by simpa using h), if_pos h, List.map_cons, hx,
        ih (a + 1) hxs, List.map_cons, List.map_map]
      congr 1
      · omega
      · congr 1
        funext n
        show n + (a + 1) = n + 1 + a
        omega
    · rw [if_neg (by simpa using h), if_neg h, ih (a + 1) hxs, List.map_map]
      congr 1
      funext n
      show n + (a + 1) = n + 1 + a
      omega

theorem filter_index_pos_zero (K : BK) (S : List TaskStream)
    (hf : S.map (fun r => r.index) = List.range S.length) :
    (S.filter (fun r => bucketKind r.stype = K)).map (fun r => r.index) =
      pos_of K S := by
  rw [filter_index_pos K S 0 (by rw [hf, List.range_eq_range'])]
  simp

theorem pos_of_length (K : BK) (S : List TaskStream) :
    (pos_of K S).length =
      (S.filter (fun r => bucketKind r.stype = K)).length := by
  induction S with
  | nil => rfl
  | cons x xs ih =>
    rw [pos_of_cons, List.filter_cons]
    by_cases h : bucketKind x.stype = K
    · rw [if_pos h, if_pos (by simpa using h)]
      simp [ih]
    · rw [if_neg h, if_neg (by simpa using h)]
      simp [ih]

theorem cells_of_file_as_pos (K : BK) (fl : InputFile) :
    cells_of_file K 0 fl =
      ((fl.stream_info.filter (fun r => bucketKind r.stype = K)).map
        (fun r => r.index)).map (fun s => ((0 : Nat), s)) := by
  unfold cells_of_file
  rw [List.map_map]
  rfl

theorem assign_cells_cons (files : List InputFile) (c : Nat × Nat)
    (cs : List (Nat × Nat)) (idx : Nat) :
    assign_cells files (c :: cs) idx =
      match set_output_cell files c.1 c.2 idx with
      | none => none
      | some files1 => assign_cells files1 cs (idx + 1) := rfl

theorem assign_cells_head (fl : InputFile) (rest : List InputFile)
    (ss : List Nat) (start : Nat) :
    assign_cells (fl :: rest) (ss.map (fun s => ((0 : Nat), s))) start =
      (set_stream_cells fl.stream_info ss start).map
        (fun S => { fl with stream_info := S } :: rest) := by
  induction ss generalizing fl start with
  | nil =>
    show some (fl :: rest) = some ({ fl with stream_info := fl.stream_info } :: rest)
    rfl
  | cons s ss ih =>
    rw [List.map_cons, assign_cells_cons, set_stream_cells_cons]
    dsimp only
    have heq : set_output_cell (fl :: rest) 0 s start =
        match fl.stream_info[s]? with
        | none => none
        | some rec => some (({ fl with stream_info := fl.stream_info.set s ({ rec with output_index := Int.ofNat start }) }) :: rest) := by
      unfold set_output_cell
      rw [List.getElem?_cons_zero]
      rfl
    rw [heq]
    cases hs : fl.stream_info[s]? with
    | none => rfl
    | some rec =>
      dsimp only
      rw [ih]

theorem set_output_cell_shift (x : InputFile) (files : List InputFile)
    (f s idx : Nat) :
    set_output_cell (x :: files) (f + 1) s idx =
      (set_output_cell files f s idx).map (fun fs => x :: fs) := by
  unfold set_output_cell
  rw [List.getElem?_cons_succ]
  cases hf : files[f]? with
  | none => rfl
  | some fl =>
    dsimp only
    cases hs : fl.stream_info[s]? with
    | none => rfl
    | some rec =>
      dsimp only
      rw [List.set_cons_succ]
      rfl

theorem assign_cells_shift (x : InputFile) (files : List InputFile)
    (cells : List (Nat × Nat)) (start : Nat) :
    assign_cells (x :: files) (cells.map (fun c => (c.1 + 1, c.2))) start =
      (assign_cells files cells start).map (fun fs => x :: fs) := by
  induction cells generalizing files start with
  | nil => rfl
  | cons c cs ih =>
    rw [List.map_cons, assign_cells_cons, assign_cells_cons]
    dsimp only
    rw [set_output_cell_shift]
    cases h : set_output_cell files c.1 c.2 start with
    | none => rfl
    | some files1 =>
      rw [Option.map_some']
      dsimp only
      rw [ih]

theorem cells_from_shift (K : BK) (fi : Nat) (files : List InputFile) :
    cells_from K (fi + 1) files =
      (cells_from K fi files).map (fun c => (c.1 + 1, c.2)) := by
  induction files generalizing fi with
  | nil => rfl
  | cons fl rest ih =>
    rw [show cells_from K (fi + 1) (fl :: rest) =
        cells_of_file K (fi + 1) fl ++ cells_from K (fi + 1 + 1) rest from rfl,
      show cells_from K fi (fl :: rest) =
        cells_of_file K fi fl ++ cells_from K (fi + 1) rest from rfl,
      List.map_append, ih (fi + 1)]
    congr 1
    unfold cells_of_file
    rw [List.map_map]
    congr 1

theorem assign_cells_append (files : List InputFile)
    (P1 P2 : List (Nat × Nat)) (start : Nat) :
    assign_cells files (P1 ++ P2) start =
      match assign_cells files P1 start with
      | none => none
      | some f1 => assign_cells f1 P2 (start + P1.length) := by
  induction P1 generalizing files start with
  | nil =>
    show assign_cells files P2 start = assign_cells files P2 (start + 0)
    rw [Nat.add_zero]
  | cons c cs ih =>
    rw [List.cons_append, assign_cells_cons, assign_cells_cons]
    cases h : set_output_cell files c.1 c.2 start with
    | none => rfl
    | some f1 =>
      dsimp only
      rw [ih, List.length_cons]
      cases h2 : assign_cells f1 cs (start + 1) with
      | none => rfl
      | some f2 =>
        dsimp only
        rw [show start + 1 + cs.length = start + (cs.length + 1) from by omega]

/-- Each input file's probed stream indices are exactly its stream
positions (claim C1's precondition, holding file by file). -/
def IndexFaithful (files : List InputFile) : Prop :=
  ∀ fl ∈ files, fl.stream_info.map (fun r => r.index) =
    List.range fl.stream_info.length

theorem cells_from_cons (K : BK) (fi : Nat) (fl : InputFile)
    (rest : List InputFile) :
    cells_from K fi (fl :: rest) =
      cells_of_file K fi fl ++ cells_from K (fi + 1) rest := rfl

theorem file_write_ranks_cons (K : BK) (fl : InputFile)
    (rest : List InputFile) (n : Nat) :
    file_write_ranks K (fl :: rest) n =
      { fl with stream_info := stream_write_ranks K fl.stream_info n } ::
        file_write_ranks K rest
          (n + (fl.stream_info.filter (fun r => bucketKind r.stype = K)).length) :=
  rfl

/-- Under faithful indices, one kind's write pass succeeds and produces
exactly the rank numbering of that kind's streams. -/
theorem assign_cells_kind (K : BK) (files : List InputFile) (start : Nat)
    (hf : IndexFaithful files) :
    assign_cells files (cells_from K 0 files) start =
      some (file_write_ranks K files start) := by
  induction files generalizing start with
  | nil => rfl
  | cons fl rest ih =>
    have hfl := hf fl (List.mem_cons_self fl rest)
    have hrest : IndexFaithful rest := fun g hg => hf g (List.mem_cons_of_mem fl hg)
    rw [cells_from_cons, cells_from_shift K 0 rest, assign_cells_append,
      cells_of_file_as_pos, filter_index_pos_zero K fl.stream_info hfl,
      assign_cells_head, set_stream_cells_pos, Option.map_some']
    dsimp only
    rw [assign_cells_shift, ih _ hrest, Option.map_some', file_write_ranks_cons,
      show start + ((pos_of K fl.stream_info).map (fun s => ((0 : Nat), s))).length =
        start + (fl.stream_info.filter (fun r => bucketKind r.stype = K)).length
        from by rw [List.length_map, pos_of_length]]

/-- The output indices of one kind's streams, in file-then-stream
(encounter) order. -/
def outs (K : BK) (files : List InputFile) : List Int :=
  (files.flatMap (fun fl =>
    fl.stream_info.filter (fun r => bucketKind r.stype = K))).map
    (fun r => r.output_index)

theorem outs_cons (K : BK) (fl : InputFile) (rest : List InputFile) :
    outs K (fl :: rest) =
      (fl.stream_info.filter (fun r => bucketKind r.stype = K)).map
        (fun r => r.output_index) ++ outs K rest := by
  unfold outs
  rw [List.flatMap_cons, List.map_append]

theorem range'_glue (s m n : Nat) :
    List.range' s m ++ List.range' (s + m) n = List.range' s (m + n) := by
  induction m generalizing s with
  | zero => simp
  | succ m ih =>
    rw [List.range'_succ, show m + 1 + n = (m + n) + 1 from by omega,
      List.range'_succ, List.cons_append, show s + (m + 1) = s + 1 + m from by omega,
      ih (s + 1)]

theorem swr_filter_same (K : BK) (S : List TaskStream) (n : Nat) :
    ((stream_write_ranks K S n).filter
      (fun r => bucketKind r.stype = K)).map (fun r => r.output_index) =
      (List.range' n (S.filter (fun r => bucketKind r.stype = K)).length).map
        Int.ofNat := by
  induction S generalizing n with
  | nil => rfl
  | cons x xs ih =>
    rw [stream_write_ranks_cons]
    by_cases h : bucketKind x.stype = K
    · rw [if_pos h, List.filter_cons, List.filter_cons,
        if_pos (by simpa using h), if_pos (by simpa using h), List.map_cons,
        List.length_cons, List.range'_succ, List.map_cons, ih (n + 1)]
    · rw [if_neg h, List.filter_cons, List.filter_cons,
        if_neg (by simpa using h), if_neg (by simpa using h), ih n]

theorem swr_filter_other (K K2 : BK) (hne : K2 ≠ K) (S : List TaskStream)
    (n : Nat) :
    (stream_write_ranks K S n).filter (fun r => bucketKind r.stype = K2) =
      S.filter (fun r => bucketKind r.stype = K2) := by
  induction S generalizing n with
  | nil => rfl
  | cons x xs ih =>
    rw [stream_write_ranks_cons]
    by_cases h : bucketKind x.stype = K
    · have hx : ¬ (bucketKind x.stype = K2) := fun hc => hne (hc.symm.trans h)
      rw [if_pos h, List.filter_cons, List.filter_cons,
        if_neg (by simpa using hx), if_neg (by simpa using hx), ih (n + 1)]
    · rw [if_neg h, List.filter_cons, List.filter_cons]
      by_cases h2 : bucketKind x.stype = K2
      · rw [if_pos (by simpa using h2), if_pos (by simpa using h2), ih n]
      · rw [if_neg (by simpa using h2), if_neg (by simpa using h2), ih n]

theorem swr_map_index (K : BK) (S : List TaskStream) (n : Nat) :
    (stream_write_ranks K S n).map (fun r => r.index) =
      S.map (fun r => r.index) := by
  induction S generalizing n with
  | nil => rfl
  | cons x xs ih =>
    rw [stream_write_ranks_cons]
    by_cases h : bucketKind x.stype = K
    · rw [if_pos h, List.map_cons, List.map_cons, ih (n + 1)]
    · rw [if_neg h, List.map_cons, List.map_cons, ih n]

theorem swr_length (K : BK) (S : List TaskStream) (n : Nat) :
    (stream_write_ranks K S n).length = S.length := by
  induction S generalizing n with
  | nil => rfl
  | cons x xs ih =>
    rw [stream_write_ranks_cons]
    by_cases h : bucketKind x.stype = K
    · rw [if_pos h, List.length_cons, List.length_cons, ih (n + 1)]
    · rw [if_neg h, List.length_cons, List.length_cons, ih n]

theorem outs_write_same (K : BK) (files : List InputFile) (n : Nat) :
    outs K (file_write_ranks K files n) =
      (List.range' n (outs K files).length).map Int.ofNat := by
  induction files generalizing n with
  | nil => rfl
  | cons fl rest ih =>
    rw [file_write_ranks_cons, outs_cons, outs_cons]
    dsimp only
    rw [swr_filter_same, ih, List.length_append, List.length_map,
      ← List.map_append, range'_glue]

theorem outs_write_other (K K2 : BK) (hne : K2 ≠ K) (files : List InputFile)
    (n : Nat) :
    outs K2 (file_write_ranks K files n) = outs K2 files := by
  induction files generalizing n with
  | nil => rfl
  | cons fl rest ih =>
    rw [file_write_ranks_cons, outs_cons, outs_cons]
    dsimp only
    rw [swr_filter_other K K2 hne, ih]

theorem cells_from_write_other (K K2 : BK) (hne : K2 ≠ K)
    (files : List InputFile) (fi n : Nat) :
    cells_from K2 fi (file_write_ranks K files n) = cells_from K2 fi files := by
  induction files generalizing fi n with
  | nil => rfl
  | cons fl rest ih =>
    rw [file_write_ranks_cons, cells_from_cons, cells_from_cons, ih]
    congr 1
    unfold cells_of_file
    dsimp only
    rw [swr_filter_other K K2 hne]

theorem faithful_write (K : BK) (files : List InputFile) (n : Nat)
    (hf : IndexFaithful files) :
    IndexFaithful (file_write_ranks K files n) := by
  induction files generalizing n with
  | nil => exact fun g hg => absurd hg (List.not_mem_nil g)
  | cons fl rest ih =>
    intro g hg
    rw [file_write_ranks_cons, List.mem_cons] at hg
    rcases hg with hg | hg
    · subst hg
      dsimp only
      rw [swr_map_index, swr_length]
      exact hf fl (List.mem_cons_self fl rest)
    · exact ih
        (n + (fl.stream_info.filter (fun r => bucketKind r.stype = K)).length)
        (fun g2 hg2 => hf g2 (List.mem_cons_of_mem fl hg2)) g hg

theorem cells_from_outs_length (K : BK) (fi : Nat) (files : List InputFile) :
    (cells_from K fi files).length = (outs K files).length := by
  induction files generalizing fi with
  | nil => rfl
  | cons fl rest ih =>
    rw [cells_from_cons, outs_cons, List.length_append, List.length_append,
      ih (fi + 1)]
    congr 1
    unfold cells_of_file
    rw [List.length_map, List.length_map]

/-- The combined write pass (video, audio, subtitle, other cells in that
order, numbering from 0) gives the four kinds consecutive ranges of
output indices. -/
theorem assign_all_outs (files files' : List InputFile)
    (hf : IndexFaithful files)
    (h : assign_cells files (cells_from .video 0 files ++
      cells_from .audio 0 files ++ cells_from .subtitle 0 files ++
      cells_from .other 0 files) 0 = some files') :
    outs .video files' =
      (List.range' 0 (outs .video files).length).map Int.ofNat ∧
    outs .audio files' =
      (List.range' (outs .video files).length
        (outs .audio files).length).map Int.ofNat ∧
    outs .subtitle files' =
      (List.range' ((outs .video files).length + (outs .audio files).length)
        (outs .subtitle files).length).map Int.ofNat ∧
    outs .other files' =
      (List.range' ((outs .video files).length + (outs .audio files).length +
        (outs .subtitle files).length)
        (outs .other files).length).map Int.ofNat := by
  rw [assign_cells_append, assign_cells_append, assign_cells_append,
    assign_cells_kind .video files 0 hf] at h
  dsimp only at h
  have hW1f : IndexFaithful (file_write_ranks .video files 0) :=
    faithful_write .video files 0 hf
  have hA : assign_cells (file_write_ranks .video files 0)
      (cells_from .audio 0 files) (0 + (cells_from .video 0 files).length) =
      some (file_write_ranks .audio (file_write_ranks .video files 0)
        (0 + (cells_from .video 0 files).length)) := by
    rw [show cells_from BK.audio 0 files =
      cells_from BK.audio 0 (file_write_ranks .video files 0) from
      (cells_from_write_other .video .audio (by decide) files 0 0).symm]
    exact assign_cells_kind .audio _ _ hW1f
  rw [hA] at h
  dsimp only at h
  have hW2f : IndexFaithful (file_write_ranks .audio
      (file_write_ranks .video files 0)
      (0 + (cells_from .video 0 files).length)) :=
    faithful_write .audio _ _ hW1f
  have hS : assign_cells (file_write_ranks .audio
      (file_write_ranks .video files 0) (0 + (cells_from .video 0 files).length))
      (cells_from .subtitle 0 files)
      (0 + (cells_from .video 0 files ++ cells_from .audio 0 files).length) =
      some (file_write_ranks .subtitle
        (file_write_ranks .audio (file_write_ranks .video files 0)
          (0 + (cells_from .video 0 files).length))
        (0 + (cells_from .video 0 files ++ cells_from .audio 0 files).length)) := by
    rw [show cells_from BK.subtitle 0 files =
      cells_from BK.subtitle 0 (file_write_ranks .audio
        (file_write_ranks .video files 0)
        (0 + (cells_from .video 0 files).length)) from by
      rw [cells_from_write_other .audio .subtitle (by decide),
        cells_from_write_other .video .subtitle (by decide)]]
    exact assign_cells_kind .subtitle _ _ hW2f
  rw [hS] at h
  dsimp only at h
  have hW3f : IndexFaithful (file_write_ranks .subtitle
      (file_write_ranks .audio (file_write_ranks .video files 0)
        (0 + (cells_from .video 0 files).length))
      (0 + (cells_from .video 0 files ++ cells_from .audio 0 files).length)) :=
    faithful_write .subtitle _ _ hW2f
  have hO : assign_cells (file_write_ranks .subtitle
      (file_write_ranks .audio (file_write_ranks .video files 0)
        (0 + (cells_from .video 0 files).length))
      (0 + (cells_from .video 0 files ++ cells_from .audio 0 files).length))
      (cells_from .other 0 files)
      (0 + (cells_from .video 0 files ++ cells_from .audio 0 files ++
        cells_from .subtitle 0 files).length) =
      some (file_write_ranks .other
        (file_write_ranks .subtitle
          (file_write_ranks .audio (file_write_ranks .video files 0)
            (0 + (cells_from .video 0 files).length))
          (0 + (cells_from .video 0 files ++ cells_from .audio 0 files).length))
        (0 + (cells_from .video 0 files ++ cells_from .audio 0 files ++
          cells_from .subtitle 0 files).length)) := by
    rw [show cells_from BK.other 0 files =
      cells_from BK.other 0 (file_write_ranks .subtitle
        (file_write_ranks .audio (file_write_ranks .video files 0)
          (0 + (cells_from .video 0 files).length))
        (0 + (cells_from .video 0 files ++ cells_from .audio 0 files).length))
      from by
      rw [cells_from_write_other .subtitle .other (by decide),
        cells_from_write_other .audio .other (by decide),
        cells_from_write_other .video .other (by decide)]]
    exact assign_cells_kind .other _ _ hW3f
  rw [hO] at h
  rw [Option.some.injEq] at h
  subst h
  have lenV := cells_from_outs_length .video 0 files
  have lenA := cells_from_outs_length .audio 0 files
  have lenS := cells_from_outs_length .subtitle 0 files
  refine ⟨?_, ?_, ?_, ?_⟩
  · rw [outs_write_other .other .video (by decide),
      outs_write_other .subtitle .video (by decide),
      outs_write_other .audio .video (by decide),
      outs_write_same .video files 0]
  · rw [outs_write_other .other .audio (by decide),
      outs_write_other .subtitle .audio (by decide),
      outs_write_same .audio]
    rw [outs_write_other .video .audio (by decide), Nat.zero_add, lenV]
  · rw [outs_write_other .other .subtitle (by decide),
      outs_write_same .subtitle]
    rw [outs_write_other .audio .subtitle (by decide),
      outs_write_other .video .subtitle (by decide), Nat.zero_add,
      List.length_append, lenV, lenA]
  · rw [outs_write_same .other]
    rw [outs_write_other .subtitle .other (by decide),
      outs_write_other .audio .other (by decide),
      outs_write_other .video .other (by decide), Nat.zero_add,
      List.length_append, List.length_append, lenV, lenA, lenS]

theorem cells_of_file_nodup (K : BK) (fi : Nat) (fl : InputFile)
    (hfl : fl.stream_info.map (fun r => r.index) =
      List.range fl.stream_info.length) :
    (cells_of_file K fi fl).Nodup := by
  have h2 : cells_of_file K fi fl =
      ((fl.stream_info.filter (fun r => bucketKind r.stype = K)).map
        (fun r => r.index)).map (fun i => (fi, i)) := by
    unfold cells_of_file
    rw [List.map_map]
    rfl
  rw [h2]
  apply List.Nodup.map
  · intro a b hab
    exact (Prod.ext_iff.mp hab).2
  · have hsub : List.Sublist
        ((fl.stream_info.filter
          (fun r => bucketKind r.stype = K)).map (fun r => r.index))
        (fl.stream_info.map (fun r => r.index)) :=
      List.Sublist.map _ (List.filter_sublist _)
    rw [hfl] at hsub
    exact List.Nodup.sublist hsub (List.nodup_range _)

theorem cells_from_nodup (K : BK) (fi : Nat) (files : List InputFile)
    (hf : IndexFaithful files) : (cells_from K fi files).Nodup := by
  induction files generalizing fi with
  | nil => exact List.nodup_nil
  | cons fl rest ih =>
    rw [cells_from_cons]
    apply List.Nodup.append
    · exact cells_of_file_nodup K fi fl (hf fl (List.mem_cons_self fl rest))
    · exact ih (fi + 1) (fun g hg => hf g (List.mem_cons_of_mem fl hg))
    · intro c hc1 hc2
      have h1 : c.1 = fi := by
        unfold cells_of_file at hc1
        rw [List.mem_map] at hc1
        obtain ⟨r, _, rfl⟩ := hc1
        rfl
      rw [cells_from_mem] at hc2
      obtain ⟨t, _, h2, _⟩ := hc2
      omega

theorem cells_from_disjoint (K K2 : BK) (hne : K ≠ K2) (fi : Nat)
    (files : List InputFile) (hf : IndexFaithful files) :
    List.Disjoint (cells_from K fi files) (cells_from K2 fi files) := by
  intro c hc1 hc2
  rw [cells_from_mem] at hc1 hc2
  obtain ⟨t, ht, hct, r, hr, hK, hidx⟩ := hc1
  obtain ⟨t2, ht2, hct2, r2, hr2, hK2, hidx2⟩ := hc2
  have htt : t = t2 := by omega
  subst htt
  have hmem : files.getD t default ∈ files := by
    rw [List.getD_eq_getElem files default ht]
    exact List.getElem_mem ht
  have hnd : (((files.getD t default).stream_info).map
      (fun r => r.index)).Nodup := by
    rw [hf _ hmem]
    exact List.nodup_range _
  have hrr : r = r2 :=
    List.inj_on_of_nodup_map hnd hr hr2 (by rw [hidx, hidx2])
  subst hrr
  exact hne (hK.symm.trans hK2)

theorem cells_all_nodup (files : List InputFile) (hf : IndexFaithful files) :
    (cells_from .video 0 files ++ cells_from .audio 0 files ++
      cells_from .subtitle 0 files ++ cells_from .other 0 files).Nodup := by
  rw [List.append_assoc, List.append_assoc]
  apply List.Nodup.append (cells_from_nodup .video 0 files hf)
  · apply List.Nodup.append (cells_from_nodup .audio 0 files hf)
    · apply List.Nodup.append (cells_from_nodup .subtitle 0 files hf)
        (cells_from_nodup .other 0 files hf)
      exact cells_from_disjoint .subtitle .other (by decide) 0 files hf
    · rw [List.disjoint_append_right]
      exact ⟨cells_from_disjoint .audio .subtitle (by decide) 0 files hf,
        cells_from_disjoint .audio .other (by decide) 0 files hf⟩
  · rw [List.disjoint_append_right, List.disjoint_append_right]
    exact ⟨cells_from_disjoint .video .audio (by decide) 0 files hf,
      cells_from_disjoint .video .subtitle (by decide) 0 files hf,
      cells_from_disjoint .video .other (by decide) 0 files hf⟩

/-- Claim C1's precondition: every probe reports stream indices
`0, 1, ..., n-1` in order. -/
def ProbeFaithful (env : MergeEnv) : Prop :=
  ∀ p, ((get_video_stream (env.probe p) p).1.stream_info).map
      (fun r => r.index) =
    List.range ((get_video_stream (env.probe p) p).1.stream_info).length

theorem files_spec_faithful (env : MergeEnv) (hpre : ProbeFaithful env)
    (fi : Nat) (ps : List String) :
    IndexFaithful (files_spec env fi ps) := by
  induction ps generalizing fi with
  | nil => exact fun g hg => absurd hg (List.not_mem_nil g)
  | cons p rest ih =>
    intro g hg
    rw [show files_spec env fi (p :: rest) =
      file_entry env fi p :: files_spec env (fi + 1) rest from rfl,
      List.mem_cons] at hg
    rcases hg with hg | hg
    · subst hg
      show ((get_video_stream (env.probe p) p).1.stream_info.map
          toTaskStream).map (fun r => r.index) =
        List.range ((get_video_stream (env.probe p) p).1.stream_info.map
          toTaskStream).length
      rw [List.map_map, List.length_map]
      exact hpre p
    · exact ih (fi + 1) g hg

theorem task_cells_eq (env : MergeEnv) (vf : String) (af sf : List String) :
    task_cells env vf af sf =
      cells_from .video 0 (files_spec env 0 (task_inputs vf af sf)) ++
      cells_from .audio 0 (files_spec env 0 (task_inputs vf af sf)) ++
      cells_from .subtitle 0 (files_spec env 0 (task_inputs vf af sf)) ++
      cells_from .other 0 (files_spec env 0 (task_inputs vf af sf)) := rfl

/-- Claim C1's per-task property, stated on a task's `input_files`: the
four kinds' output indices are the consecutive blocks
`[0..nv) [nv..nv+na) [nv+na..nv+na+ns) [nv+na+ns..k)`, each in encounter
order, and together they are exactly `0..k-1`. -/
def GoodFiles (F : List InputFile) : Prop :=
  outs .video F =
    (List.range' 0 (outs .video F).length).map Int.ofNat ∧
  outs .audio F =
    (List.range' (outs .video F).length (outs .audio F).length).map Int.ofNat ∧
  outs .subtitle F =
    (List.range' ((outs .video F).length + (outs .audio F).length)
      (outs .subtitle F).length).map Int.ofNat ∧
  outs .other F =
    (List.range' ((outs .video F).length + (outs .audio F).length +
      (outs .subtitle F).length) (outs .other F).length).map Int.ofNat ∧
  outs .video F ++ outs .audio F ++ outs .subtitle F ++ outs .other F =
    (List.range ((outs .video F).length + (outs .audio F).length +
      (outs .subtitle F).length + (outs .other F).length)).map Int.ofNat

theorem glue_four (lv la ls lo : Nat) :
    (List.range' 0 lv).map Int.ofNat ++ (List.range' lv la).map Int.ofNat ++
      (List.range' (lv + la) ls).map Int.ofNat ++
      (List.range' (lv + la + ls) lo).map Int.ofNat =
    (List.range (lv + la + ls + lo)).map Int.ofNat := by
  rw [← List.map_append, ← List.map_append, ← List.map_append,
    List.range_eq_range',
    show lv + la + ls + lo = lv + (la + (ls + lo)) from by omega,
    ← range'_glue 0 lv (la + (ls + lo)),
    ← range'_glue (0 + lv) la (ls + lo),
    ← range'_glue (0 + lv + la) ls lo]
  simp only [Nat.zero_add, List.append_assoc]

theorem GoodFiles_of_assign (env : MergeEnv) (vf : String)
    (af sf : List String) (hpre : ProbeFaithful env) (F1 : List InputFile)
    (h : assign_cells (files_spec env 0 (task_inputs vf af sf))
      (task_cells env vf af sf) 0 = some F1) :
    GoodFiles F1 := by
  rw [task_cells_eq] at h
  obtain ⟨hv, ha, hs, ho⟩ := assign_all_outs _ F1
    (files_spec_faithful env hpre 0 (task_inputs vf af sf)) h
  have lv : (outs .video F1).length =
      (outs .video (files_spec env 0 (task_inputs vf af sf))).length := by
    rw [hv, List.length_map, List.length_range']
  have la : (outs .audio F1).length =
      (outs .audio (files_spec env 0 (task_inputs vf af sf))).length := by
    rw [ha, List.length_map, List.length_range']
  have ls : (outs .subtitle F1).length =
      (outs .subtitle (files_spec env 0 (task_inputs vf af sf))).length := by
    rw [hs, List.length_map, List.length_range']
  have lo : (outs .other F1).length =
      (outs .other (files_spec env 0 (task_inputs vf af sf))).length := by
    rw [ho, List.length_map, List.length_range']
  refine ⟨?_, ?_, ?_, ?_, ?_⟩
  · rw [lv]
    exact hv
  · rw [lv, la]
    exact ha
  · rw [lv, la, ls]
    exact hs
  · rw [lv, la, ls, lo]
    exact ho
  · rw [lv, la, ls, lo, hv, ha, hs, ho]
    exact glue_four _ _ _ _

theorem build_task_some_char (env : MergeEnv) (ofp : String) (es : Bool)
    (ff af sf : List String) (vf : String) (tid : Nat) (st1 : RunState)
    (built : List InputFile × List String × String × Nat × RunState)
    (hb : build_task env ofp es ff af sf vf tid st1 = some built) :
    assign_cells (files_spec env 0 (task_inputs vf af sf))
      (task_cells env vf af sf) 0 = some built.1 ∧
    ∀ t, assign_trace_cells t built.2.2.2.2.fx =
      assign_trace_cells t st1.fx ++
        (if t = tid then task_cells env vf af sf else []) := by
  rcases build_task_shape env ofp es ff af sf vf tid st1 with
    ⟨hn, _⟩ | ⟨out, ho, hA, htr⟩
  · rw [hn] at hb
    cases hb
  · rw [ho, Option.some.injEq] at hb
    subst hb
    exact ⟨hA, fun t => htr t⟩

theorem remove_existing_output_trace (env : MergeEnv) (dis : Bool)
    (pathO : String) (st2 st3 : RunState)
    (h : remove_existing_output env dis pathO st2 = .ok st3) (t : Nat) :
    assign_trace_cells t st3.fx = assign_trace_cells t st2.fx := by
  unfold remove_existing_output at h
  split at h
  · split at h
    · rw [Except.ok.injEq] at h
      subst h
      dsimp only
      rw [assign_trace_cells_append,
        show assign_trace_cells t [Effect.removeFile pathO] = [] from rfl,
        List.append_nil]
    · cases h
  · rw [Except.ok.injEq] at h
    subst h
    rfl

theorem clear_artifact_trace (env : MergeEnv) (enabled : Bool)
    (kn pathA : String) (st st' : RunState)
    (h : clear_artifact env enabled kn pathA st = .ok st') (t : Nat) :
    assign_trace_cells t st'.fx = assign_trace_cells t st.fx := by
  unfold clear_artifact at h
  split at h
  · split at h
    · rw [Except.ok.injEq] at h
      subst h
      dsimp only
      rw [assign_trace_cells_append,
        show assign_trace_cells t [Effect.removeFile pathA] = [] from rfl,
        List.append_nil]
    · cases h
  · rw [Except.ok.injEq] at h
    subst h
    rfl

theorem process_task_shape (env : MergeEnv) (ofp : String)
    (es dis wfl : Bool) (ff af sf : List String) (total : Nat) (vf : String)
    (tid : Nat) (st0 st' : RunState)
    (h : process_task env ofp es dis wfl ff af sf total vf tid st0 = .ok st') :
    (∃ tk, st'.report.task = st0.report.task ++ [tk] ∧
      assign_cells (files_spec env 0 (task_inputs vf af sf))
        (task_cells env vf af sf) 0 = some tk.input_files) ∧
    (∀ t, assign_trace_cells t st'.fx = assign_trace_cells t st0.fx ++
      (if t = tid then task_cells env vf af sf else [])) := by
  unfold process_task at h
  dsimp only at h
  split at h
  · cases h
  · rename_i built hb
    have hchar := build_task_some_char _ _ _ _ _ _ _ _ _ _ hb
    have htask1 := (build_task_counts _ _ _ _ _ _ _ _ _ _ hb).2
    dsimp only at htask1
    rw [add_log_task] at htask1
    have htr1 : ∀ t, assign_trace_cells t built.2.2.2.2.fx =
        assign_trace_cells t st0.fx ++
          (if t = tid then task_cells env vf af sf else []) := by
      intro t
      rw [hchar.2 t]
    split at h
    · cases h
    · rename_i st3 hro
      have hrt := (remove_existing_output_counts env dis built.2.2.1
        built.2.2.2.2 st3 hro).2
      have hrtr := remove_existing_output_trace env dis built.2.2.1
        built.2.2.2.2 st3 hro
      split at h
      · rw [Except.ok.injEq] at h
        subst h
        refine ⟨⟨⟨tid, true, "FFmpeg process is disabled", 0, built.2.1, built.1⟩,
          ?_, hchar.1⟩, ?_⟩
        · dsimp only
          simp only [add_log_task]
          rw [hrt, htask1]
        · intro t
          dsimp only
          rw [hrtr t, htr1 t]
      · split at h
        · rw [Except.ok.injEq] at h
          subst h
          refine ⟨⟨⟨tid, false, "", -1, built.2.1, built.1⟩, ?_, hchar.1⟩, ?_⟩
          · dsimp only
            simp only [add_log_task]
            rw [hrt, htask1]
          · intro t
            dsimp only
            rw [assign_trace_cells_append,
              show assign_trace_cells t [Effect.spawnMerge built.2.1] = []
                from rfl,
              List.append_nil, hrtr t, htr1 t]
        · rename_i runOut hrun
          split at h
          · rw [Except.ok.injEq] at h
            subst h
            refine ⟨⟨⟨tid, true, runOut.1 ++ "\n" ++ runOut.2.1 ++ "\n",
              runOut.2.2, built.2.1, built.1⟩, ?_, hchar.1⟩, ?_⟩
            · dsimp only
              simp only [add_log_task, add_warning_task, log_muxer_lines_task,
                apply_ite RunReport.task, ite_self]
              rw [hrt, htask1]
            · intro t
              dsimp only
              rw [assign_trace_cells_append,
                show assign_trace_cells t [Effect.spawnMerge built.2.1] = []
                  from rfl,
                List.append_nil, hrtr t, htr1 t]
          · rw [Except.ok.injEq] at h
            subst h
            refine ⟨⟨⟨tid, false, runOut.1 ++ "\n" ++ runOut.2.1 ++ "\n",
              runOut.2.2, built.2.1, built.1⟩, ?_, hchar.1⟩, ?_⟩
            · dsimp only
              simp only [add_log_task, add_warning_task, log_muxer_lines_task,
                apply_ite RunReport.task, ite_self]
              rw [hrt, htask1]
            · intro t
              dsimp only
              rw [assign_trace_cells_append,
                show assign_trace_cells t [Effect.spawnMerge built.2.1] = []
                  from rfl,
                List.append_nil, hrtr t, htr1 t]

theorem run_tasks_shape (env : MergeEnv) (ofp : String) (es dis wfl : Bool)
    (ff af sf : List String) (total : Nat) (vfs : List String) (tid : Nat)
    (st : RunState) (out : RunState × Nat)
    (h : run_tasks env ofp es dis wfl ff af sf total vfs tid st = .ok out) :
    (∀ tk ∈ out.1.report.task, tk ∈ st.report.task ∨
      ∃ vf ∈ vfs, assign_cells (files_spec env 0 (task_inputs vf af sf))
        (task_cells env vf af sf) 0 = some tk.input_files) ∧
    (∀ t, assign_trace_cells t out.1.fx = assign_trace_cells t st.fx ++
      (if tid < t ∧ t ≤ tid + vfs.length
       then task_cells env (vfs.getD (t - tid - 1) "") af sf else [])) := by
  induction vfs generalizing tid st with
  | nil =>
    rw [run_tasks, Except.ok.injEq] at h
    subst h
    refine ⟨fun tk htk => .inl htk, fun t => ?_⟩
    rw [if_neg (by simp only [List.length_nil]; omega), List.append_nil]
  | cons vf rest ih =>
    rw [run_tasks] at h
    split at h
    · cases h
    · rename_i st1 hstep
      obtain ⟨⟨tk1, htk1, hassign1⟩, htr1⟩ :=
        process_task_shape _ _ _ _ _ _ _ _ _ _ _ _ _ hstep
      obtain ⟨htasks2, htr2⟩ := ih (tid + 1) st1 h
      constructor
      · intro tk htk
        rcases htasks2 tk htk with hin | ⟨vf2, hvf2, hs2⟩
        · rw [htk1, List.mem_append] at hin
          rcases hin with hin | hin
          · exact .inl hin
          · rw [List.mem_singleton] at hin
            subst hin
            exact .inr ⟨vf, List.mem_cons_self vf rest, hassign1⟩
        · exact .inr ⟨vf2, List.mem_cons_of_mem vf hvf2, hs2⟩
      · intro t
        rw [htr2 t, htr1 t]
        by_cases hc : t = tid + 1
        · subst hc
          rw [if_pos rfl, if_neg (by omega), List.append_nil,
            if_pos (show tid < tid + 1 ∧ tid + 1 ≤ tid + (vf :: rest).length
              from by simp only [List.length_cons]; omega),
            show tid + 1 - tid - 1 = 0 from by omega, List.getD_cons_zero]
        · rw [if_neg hc, List.append_nil]
          by_cases hc2 : tid + 1 < t ∧ t ≤ tid + 1 + rest.length
          · rw [if_pos hc2,
              if_pos (show tid < t ∧ t ≤ tid + (vf :: rest).length
                from by simp only [List.length_cons]; omega),
              show t - (tid + 1) - 1 = t - tid - 2 from by omega,
              show t - tid - 1 = (t - tid - 2) + 1 from by omega,
              List.getD_cons_succ]
          · rw [if_neg hc2,
              if_neg (show ¬ (tid < t ∧ t ≤ tid + (vf :: rest).length)
                from by simp only [List.length_cons]; omega)]

theorem validate_folders_trace (env : MergeEnv) (vfp ofp : String)
    (dis : Bool) (r0 : RunReport) (fx0 : List Effect) (t : Nat) :
    assign_trace_cells t (validate_folders env vfp ofp dis r0 fx0).2.1 =
      assign_trace_cells t fx0 := by
  unfold validate_folders
  cases hmk : env.makedirs <;>
    simp [apply_ite Prod.fst, apply_ite Prod.snd,
      apply_ite (assign_trace_cells t), ite_self, assign_trace_cells_append,
      show assign_trace_cells t [Effect.makeDirs ofp] =
        ([] : List (Nat × Nat)) from rfl]

theorem nodup_ite_nil {c : Prop} [Decidable c] (l : List (Nat × Nat))
    (h : l.Nodup) : (if c then l else []).Nodup := by
  split
  · exact h
  · exact List.nodup_nil

theorem write_match_trace (env : MergeEnv) (p : String) (fx : List Effect)
    (t : Nat) :
    assign_trace_cells t (match env.write p with
      | .ok _ => fx ++ [Effect.writeFile p]
      | .error _ => fx) = assign_trace_cells t fx := by
  cases hw : env.write p with
  | ok u =>
    dsimp only
    rw [assign_trace_cells_append,
      show assign_trace_cells t [Effect.writeFile p] = [] from rfl,
      List.append_nil]
  | error e => rfl

/-- C1: under the precondition that every probe reports stream indices
`0..n-1` in order, every task of a completed run assigns its streams the
output indices `0..k-1`, partitioned into the contiguous blocks video,
audio, subtitle, other, each in encounter order; and no output cell is
written twice for the same task (its trace of writes has no duplicate). -/
theorem C1_output_index_blocks (env : MergeEnv) (vfp ofp : String)
    (es dis wfl slf sjf : Bool) (out : RunReport × List Effect)
    (hpre : ProbeFaithful env)
    (hok : merge_video_stream env vfp ofp es dis wfl slf sjf = .ok out) :
    (∀ tk ∈ out.1.task, GoodFiles tk.input_files) ∧
    (∀ t, (assign_trace_cells t out.2).Nodup) := by
  unfold merge_video_stream at hok
  dsimp only at hok
  split at hok
  · cases hok
  · rename_i loopOut hrt
    obtain ⟨htasks, htrace⟩ := run_tasks_shape _ _ _ _ _ _ _ _ _ _ _ _ _ hrt
    split at hok
    · cases hok
    · rename_i st4 hcl
      rw [Except.ok.injEq] at hok
      subst hok
      have hst4 : st4.report.task = loopOut.1.report.task ∧
          ∀ t, assign_trace_cells t st4.fx = assign_trace_cells t loopOut.1.fx := by
        split at hcl
        · split at hcl
          · cases hcl
          · rename_i stL h1
            have hA := (clear_artifact_counts _ _ _ _ _ _ h1).2
            have hAtr := clear_artifact_trace _ _ _ _ _ _ h1
            have hB := (clear_artifact_counts _ _ _ _ _ _ hcl).2
            have hBtr := clear_artifact_trace _ _ _ _ _ _ hcl
            constructor
            · rw [hB, hA]
              dsimp only
              simp only [apply_ite RunReport.task, add_warning_list_task,
                ite_self]
            · intro t
              rw [hBtr t, hAtr t]
        · rw [Except.ok.injEq] at hcl
          subst hcl
          constructor
          · dsimp only
            simp only [apply_ite RunReport.task, add_warning_list_task,
              ite_self]
          · intro t
            rfl
      obtain ⟨hst4task, hst4tr⟩ := hst4
      constructor
      · intro tk htk
        dsimp only at htk
        simp only [add_log_task, apply_ite RunReport.task, add_warning_task,
          ite_self] at htk
        rw [hst4task] at htk
        rcases htasks tk htk with hin | ⟨vf2, hvf2, hs2⟩
        · dsimp only at hin
          rw [(validate_folders_counts env vfp ofp dis _ _).2] at hin
          dsimp only at hin
          cases hin
        · exact GoodFiles_of_assign env vf2 _ _ hpre _ hs2
      · intro t
        dsimp only
        simp only [apply_ite (assign_trace_cells t), write_match_trace,
          ite_self]
        rw [hst4tr t, htrace t]
        dsimp only
        rw [validate_folders_trace,
          show assign_trace_cells t ([] : List Effect) = [] from rfl,
          List.nil_append]
        refine nodup_ite_nil _ ?_
        rw [task_cells_eq]
        exact cells_all_nodup _ (files_spec_faithful env hpre 0 _)

/-- The C1 statement instantiated at a concrete faithful world: one video
file whose probe reports no stream. -/
theorem C1_output_index_blocks_witness :
    ProbeFaithful merge_env_exit2 ∧
    ∃ out, merge_video_stream merge_env_exit2 "in" "" false false false false
      false = .ok out ∧
      ((∀ tk ∈ out.1.task, GoodFiles tk.input_files) ∧
       (∀ t, (assign_trace_cells t out.2).Nodup)) := by
  have hpre : ProbeFaithful merge_env_exit2 := fun p => by
    rw [show (get_video_stream (merge_env_exit2.probe p) p).1.stream_info = []
      from rfl]
    rfl
  exact ⟨hpre, ⟨_, rfl, C1_output_index_blocks merge_env_exit2 "in" ""
    false false false false false _ hpre rfl⟩⟩
